import Mathlib

/-!
Verification development for the courriel synchronization engine and its
durable storage layer.  The definitions below are a shallow embedding of
`src/courriel/storage/maildir.py`, `src/courriel/sync/state.py` and
`src/courriel/sync/engine.py`: pure functions become Lean functions, the
filesystem and the Gmail API become explicit state / oracle structures,
and exceptions become `Except` values.
-/

namespace Courriel

/-! ### Maildir storage model (`src/courriel/storage/maildir.py`) -/

/-- Gmail system labels mapped to Maildir folder names (`LABEL_FOLDER_MAP`). -/
def LABEL_FOLDER_MAP : List (String × String) :=
  [("INBOX", "INBOX"), ("SENT", "Sent"), ("DRAFT", "Drafts"),
   ("TRASH", "Trash"), ("SPAM", "Spam")]

/-- Priority order for the primary folder (`FOLDER_PRIORITY`). -/
def FOLDER_PRIORITY : List String := ["INBOX", "SENT", "DRAFT", "TRASH", "SPAM"]

/-- Membership test in `LABEL_FOLDER_MAP` (Python `label_id in LABEL_FOLDER_MAP`). -/
def isSystemLabel (label_id : String) : Bool :=
  (LABEL_FOLDER_MAP.lookup label_id).isSome

/-- `MaildirStorage.label_to_folder`: system labels map through
`LABEL_FOLDER_MAP`, user labels go under `Labels/`. -/
def label_to_folder (label_id : String) : String :=
  match LABEL_FOLDER_MAP.lookup label_id with
  | some f => f
  | none => "Labels/" ++ label_id

/-- The `virtual_labels` set from `MaildirStorage.get_primary_folder`. -/
def virtual_labels : List String :=
  ["UNREAD", "STARRED", "IMPORTANT", "CATEGORY_PERSONAL", "CATEGORY_SOCIAL",
   "CATEGORY_PROMOTIONS", "CATEGORY_UPDATES", "CATEGORY_FORUMS"]

/-- `MaildirStorage.get_primary_folder`: first system label in priority
order, else the first label that is neither virtual nor a system label,
else `INBOX`. -/
def get_primary_folder (label_ids : List String) : String :=
  match FOLDER_PRIORITY.find? (fun l => label_ids.contains l) with
  | some l => label_to_folder l
  | none =>
    match label_ids.find?
        (fun l => !(virtual_labels.contains l) && !(isSystemLabel l)) with
    | some l => label_to_folder l
    | none => "INBOX"

/-- `MaildirStorage.labels_to_flags`.  Python builds a set of single
characters drawn from `S`, `F`, `D`, `T` and returns `"".join(sorted(flags))`;
in character order `D < F < S < T`, so the sorted join is exactly the
concatenation below. -/
def labels_to_flags (label_ids : List String) : String :=
  String.mk
    ((if label_ids.contains "DRAFT" then ['D'] else []) ++
     (if label_ids.contains "STARRED" then ['F'] else []) ++
     (if !(label_ids.contains "UNREAD") then ['S'] else []) ++
     (if label_ids.contains "TRASH" then ['T'] else []))

/-- `MaildirStorage.generate_filename`, with the wall-clock second
`int(time.time())` passed in explicitly as `now` (epoch seconds at the
moment the message is delivered into the local store). -/
def generate_filename (now : Nat) (hostname message_id flags : String) : String :=
  toString now ++ "." ++ message_id ++ "." ++ hostname ++ ":2," ++ flags

/-- One file of the on-disk message tree: `<folder>/<subdir>/<filename>`. -/
structure MaildirFile where
  folder : String
  subdir : String
  filename : String
  content : String
deriving DecidableEq, Repr

/-- The on-disk state owned by `MaildirStorage`: its hostname and the
files currently visible under the base path. -/
structure MaildirStorage where
  hostname : String
  files : List MaildirFile
deriving DecidableEq, Repr

/-- `MaildirStorage.write_message`: the message is written under
`tmp/` and then atomically renamed into `new/` (unread) or `cur/` (read);
only the post-rename state is visible here, the crash behaviour of the
two disciplines is modelled separately below. -/
def write_message (st : MaildirStorage) (folder : String)
    (message_bytes : String) (label_ids : List String)
    (message_id : String) (now : Nat) : MaildirStorage :=
  let flags := labels_to_flags label_ids
  let filename := generate_filename now st.hostname message_id flags
  let dest := if label_ids.contains "UNREAD" then "new" else "cur"
  { st with files := st.files ++ [⟨folder, dest, filename, message_bytes⟩] }

/-- The rglob pattern `*.{message_id}.*` of `MaildirStorage.message_exists`:
a filename matches when it contains `.<message_id>.` as a substring. -/
def globMatches (message_id filename : String) : Bool :=
  decide (List.IsInfix ("." ++ message_id ++ ".").toList filename.toList)

/-- `MaildirStorage.message_exists`: scan every file, keep only hits whose
parent directory is `cur` or `new`. -/
def message_exists (st : MaildirStorage) (message_id : String) : Bool :=
  st.files.any (fun f =>
    (f.subdir == "cur" || f.subdir == "new") && globMatches message_id f.filename)

/-! ### Sync state model (`src/courriel/sync/state.py`) -/

/-- The parsed contents of a state file, with `dict.get` semantics for the
three keys. -/
structure StateDict where
  history_id : Option String
  last_sync : Option String
  synced_labels : List String
deriving DecidableEq, Repr

/-- The condition of the on-disk state file as `SyncState.load` observes
it: absent, readable-but-invalid JSON, unreadable (`OSError`), or valid. -/
inductive StateFile where
  | missing
  | corrupt
  | unreadable
  | valid (d : StateDict)
deriving DecidableEq, Repr

/-- `SyncState.load`: a missing file returns `None`; `json.JSONDecodeError`
and `OSError` are caught and also return `None`. -/
def SyncState.load : StateFile → Option StateDict
  | .missing => none
  | .corrupt => none
  | .unreadable => none
  | .valid d => some d

/-- `SyncState.get_history_id`: load, then `self._state.get("history_id")`. -/
def SyncState.get_history_id (f : StateFile) : Option String :=
  (SyncState.load f).bind (fun d => d.history_id)

/-- The mode test of `SyncEngine.sync`:
`history_id is not None and not force_full and query is None`. -/
def use_incremental (history_id : Option String) (force_full : Bool)
    (query : Option String) : Bool :=
  history_id.isSome && !force_full && query.isNone

/-! Crash model for the two file-update disciplines.  A write is broken
into the filesystem operations the code performs; each list entry is the
content of the *visible destination file* (`none` = absent) after one more
operation has completed, so a crash exposes exactly one of the entries. -/

/-- `Path.write_text` (used by `SyncState.save`): `open("w")` truncates the
destination in place, then the content is written.  Visible states:
before the call, after the truncation, after the write. -/
def write_text_states (old : Option String) (content : String) :
    List (Option String) :=
  [old, some "", some content]

/-- The write-to-`tmp/`-then-`os.rename` discipline of
`MaildirStorage.write_message`: writing the temporary file leaves the
destination untouched, and the rename installs the complete content
atomically.  Visible states: before, after the tmp write, after the rename. -/
def write_rename_states (old : Option String) (content : String) :
    List (Option String) :=
  [old, old, some content]

/-- One quoted JSON string (state-file values need no escaping in the
claims considered here). -/
def json_str (s : String) : String := "\"" ++ s ++ "\""

/-- A `json.dumps(..., indent=2)` rendering of a list of strings nested at
depth one. -/
def json_list_indent2 : List String → String
  | [] => "[]"
  | l :: ls =>
    "[\n    " ++ json_str l ++
      String.join (ls.map (fun x => ",\n    " ++ json_str x)) ++ "\n  ]"

/-- The exact text `SyncState.save` writes:
`json.dumps({"history_id": ..., "last_sync": ..., "synced_labels": ...}, indent=2)`. -/
def state_json (history_id last_sync : String) (synced_labels : List String) :
    String :=
  "\x7b" ++ "\n  \"history_id\": " ++ json_str history_id ++
    ",\n  \"last_sync\": " ++ json_str last_sync ++
    ",\n  \"synced_labels\": " ++ json_list_indent2 synced_labels ++
    "\n" ++ "\x7d"

/-- The visible states of the cursor file across `SyncState.save`, which
calls `self._state_file.write_text(json.dumps(self._state, indent=2))`
directly on the destination path. -/
def save_states (old : Option String) (history_id last_sync : String)
    (synced_labels : List String) : List (Option String) :=
  write_text_states old (state_json history_id last_sync synced_labels)

/-! ### Sync engine model (`src/courriel/sync/engine.py`) -/

/-- The dict `GmailClient.get_message` returns, restricted to the keys the
engine reads: `labelIds` (default `[]` via `.get`), `historyId`
(read with `.get`, so possibly absent), and the decoded `raw` bytes. -/
structure Message where
  labelIds : List String
  historyId : Option String
  raw : String
deriving DecidableEq, Repr

/-- One record of `history_result["history"]`: the `message.id` fields of
its `messagesAdded` entries, each read with `.get` (so possibly absent). -/
structure HistoryRecord where
  messagesAdded : List (Option String)
deriving DecidableEq, Repr

/-- The dict `GmailClient.list_history` returns: `history` records and the
latest `historyId` (read with `.get`). -/
structure HistoryResult where
  history : List HistoryRecord
  historyId : Option String
deriving DecidableEq, Repr

/-- Outcome of a `list_history` call: a result, or an `HttpError` carrying
`e.resp.status`. -/
inductive HistOutcome where
  | ok (res : HistoryResult)
  | http (status : Nat)
deriving DecidableEq, Repr

/-- The Gmail client as the engine consumes it.  It is a pure oracle: the
remote mailbox does not change during (or between) the runs considered
here, so each operation is a function of its arguments.
`list_messages` takes `(label_id, query, max_results)`; `get_message`
either returns a message or raises (any exception, carried as its string
rendering); `list_history` takes `(start_history_id, label_id)`. -/
structure GmailClient where
  list_messages : String → Option String → Nat → List String
  get_message : String → Except String Message
  list_history : String → String → HistOutcome

/-- `SyncResult` from `engine.py`. -/
structure SyncResult where
  downloaded : Nat
  skipped : Nat
  errors : Nat
  error_details : List String
deriving DecidableEq, Repr

/-- The zero `SyncResult` a run starts from. -/
def SyncResult.empty : SyncResult := ⟨0, 0, 0, []⟩

/-- `SyncResult.add_error`. -/
def SyncResult.add_error (r : SyncResult) (message_id e : String) : SyncResult :=
  { r with
    errors := r.errors + 1,
    error_details := r.error_details ++ [message_id ++ ": " ++ e] }

/-- The record `SyncState.save(history_id, labels)` commits for the
engine's account (the wall-clock `last_sync` timestamp is irrelevant to
every claim and omitted). -/
structure CursorRecord where
  history_id : String
  synced_labels : List String
deriving DecidableEq, Repr

/-- The mutable state a sync run touches: the Maildir tree and the
committed cursor (`none` = no state file). -/
structure EngineState where
  storage : MaildirStorage
  cursor : Option CursorRecord
deriving DecidableEq, Repr

/-- `SyncState.get_history_id` as the engine sees it through its state
object. -/
def get_history_id (st : EngineState) : Option String :=
  st.cursor.map (fun c => c.history_id)

/-- Python truthiness of an optional string (`if msg_history_id:` and
friends): `None` and `""` are falsy. -/
def truthy : Option String → Bool
  | none => false
  | some s => !(s == "")

/-- Python `int(...)` on the decimal history-id strings the provider
returns: the value of the digit string read left to right (non-numeric
strings would raise in Python and are outside the modelled domain). -/
def pyInt (s : String) : Nat :=
  s.toList.foldl (fun n c => n * 10 + (c.toNat - '0'.toNat)) 0

/-- The inline update of `highest_history_id` in `full_sync`:
`None` is replaced, otherwise replaced only when strictly larger as an
integer. -/
def trackHighest (highest : Option String) (h : String) : Option String :=
  match highest with
  | none => some h
  | some a => if pyInt h > pyInt a then some h else some a

/-- Accumulator for one run's per-message loop.  `highest` mirrors
`highest_history_id`; `observed`, `fetched` and `written` are ghost
traces (the truthy history ids seen on successful fetches, the ids passed
to `get_message`, and the ids written to storage, in order); they record
what happened without influencing control flow. -/
structure RunAcc where
  result : SyncResult
  storage : MaildirStorage
  highest : Option String
  observed : List String
  fetched : List String
  written : List String
deriving DecidableEq, Repr

/-- The accumulator a run starts from. -/
def initAcc (st : EngineState) : RunAcc :=
  ⟨SyncResult.empty, st.storage, none, [], [], []⟩

/-- The body of the per-message loop, shared verbatim by `full_sync` and
`incremental_sync`: skip ids that already exist, otherwise fetch
(recording a per-message error on failure), track the message's truthy
`historyId`, resolve the folder and write.  Folder resolution and the
write itself are total in this model (their failures are environmental
IO errors). -/
def syncStep (client : GmailClient) (now : Nat) (acc : RunAcc)
    (message_id : String) : RunAcc :=
  if message_exists acc.storage message_id then
    { acc with result := { acc.result with skipped := acc.result.skipped + 1 } }
  else
    let acc := { acc with fetched := acc.fetched ++ [message_id] }
    match client.get_message message_id with
    | .error e => { acc with result := acc.result.add_error message_id e }
    | .ok msg =>
      let acc :=
        match msg.historyId with
        | none => acc
        | some h =>
          if h == "" then acc
          else { acc with
                 highest := trackHighest acc.highest h,
                 observed := acc.observed ++ [h] }
      { acc with
        storage := write_message acc.storage (get_primary_folder msg.labelIds)
          msg.raw msg.labelIds message_id now,
        result := { acc.result with downloaded := acc.result.downloaded + 1 },
        written := acc.written ++ [message_id] }

/-- The `for idx, message_id in enumerate(...)` loop over a list of ids. -/
def processIds (client : GmailClient) (now : Nat) (acc : RunAcc) :
    List String → RunAcc
  | [] => acc
  | message_id :: rest =>
    processIds client now (syncStep client now acc message_id) rest

/-- The outer `for label in labels` loop of `full_sync`. -/
def fullLabels (client : GmailClient) (query : Option String)
    (max_messages : Nat) (now : Nat) (acc : RunAcc) : List String → RunAcc
  | [] => acc
  | label :: rest =>
    fullLabels client query max_messages now
      (processIds client now acc (client.list_messages label query max_messages))
      rest

/-- Everything a run returns or durably changes: the `SyncResult`, the
final engine state, and the ghost traces of the run. -/
structure SyncOut where
  result : SyncResult
  state : EngineState
  fetched : List String
  written : List String
  observed : List String
deriving DecidableEq, Repr

/-- `SyncEngine.full_sync`.  After all labels, the cursor is saved only
when `highest_history_id` is truthy (`if highest_history_id:`). -/
def full_sync (client : GmailClient) (st : EngineState) (labels : List String)
    (max_messages : Nat) (query : Option String) (now : Nat) : SyncOut :=
  let acc := fullLabels client query max_messages now (initAcc st) labels
  let cursor :=
    match acc.highest with
    | none => st.cursor
    | some h => if h == "" then st.cursor else some ⟨h, labels⟩
  ⟨acc.result, ⟨acc.storage, cursor⟩, acc.fetched, acc.written, acc.observed⟩

/-- Insertion into the Python set `new_message_ids`, represented by the
list of its elements in first-insertion order. -/
def insertNew (acc : List String) (message_id : String) : List String :=
  if acc.contains message_id then acc else acc ++ [message_id]

/-- The body of the innermost loop over one record's `messagesAdded`
entries: `if msg_id:` skips falsy (missing or empty) ids. -/
def addInner (acc : List String) (m : Option String) : List String :=
  match m with
  | none => acc
  | some msg_id => if msg_id == "" then acc else insertNew acc msg_id

/-- The two nested loops that add the `messagesAdded` ids of one
`list_history` result to the set. -/
def collectAdded (acc : List String) (hr : HistoryResult) : List String :=
  hr.history.foldl (fun acc rec => rec.messagesAdded.foldl addInner acc) acc

/-- The `current_history_id` update after one `list_history` call:
replaced when the returned id is truthy and strictly larger as an
integer. -/
def updateCurrent (current : String) (hr : HistoryResult) : String :=
  match hr.historyId with
  | none => current
  | some h =>
    if h == "" then current
    else if pyInt h > pyInt current then h else current

/-- Outcome of the `for label in labels` loop of `incremental_sync` that
calls `list_history`: fall back to full sync on a 404, re-raise any other
`HttpError`, otherwise finish with the collected id set and the tracked
`current_history_id`. -/
inductive HistPhase where
  | fallback
  | raised (status : Nat)
  | done (ids : List String) (current : String)
deriving DecidableEq, Repr

/-- The `list_history` loop of `incremental_sync`. -/
def listChangesPhase (client : GmailClient) (start : String)
    (acc : List String) (current : String) : List String → HistPhase
  | [] => .done acc current
  | label :: rest =>
    match client.list_history start label with
    | .http status =>
      if status == 404 then .fallback else .raised status
    | .ok hr =>
      listChangesPhase client start (collectAdded acc hr) (updateCurrent current hr)
        rest

/-- `SyncEngine.incremental_sync`.  `enumerate` is the iteration order of
`list(new_message_ids)`: a Python set enumerates its elements in an
unspecified order, so the conversion to a list is a parameter constrained
(in the theorems) to be a permutation of the set's elements.  A non-404
`HttpError` from `list_history` is re-raised, hence the `Except`.  The
final `state.save(current_history_id, labels)` is unconditional. -/
def incremental_sync (client : GmailClient) (st : EngineState)
    (labels : List String) (enumerate : List String → List String)
    (now : Nat) : Except Nat SyncOut :=
  match get_history_id st with
  | none => .ok (full_sync client st labels 100 none now)
  | some start =>
    if start == "" then .ok (full_sync client st labels 100 none now)
    else
      match listChangesPhase client start [] start labels with
      | .fallback => .ok (full_sync client st labels 100 none now)
      | .raised status => .error status
      | .done ids current =>
        let acc := processIds client now (initAcc st) (enumerate ids)
        .ok ⟨acc.result, ⟨acc.storage, some ⟨current, labels⟩⟩,
             acc.fetched, acc.written, acc.observed⟩

/-! ### Helper lemmas -/

/-- The flag string only ever contains the four flag characters, in the
fixed ascending order `D < F < S < T`. -/
lemma flags_chain (ls : List String) :
    List.Chain' (fun a b => a < b) (labels_to_flags ls).toList := by
  unfold labels_to_flags
  rcases hd : ls.contains "DRAFT" <;> rcases hs : ls.contains "STARRED" <;>
    rcases hu : ls.contains "UNREAD" <;> rcases ht : ls.contains "TRASH" <;>
      simp [List.chain'_cons]

/-- `List.contains` is `List.elem`, exposed for `simp`. -/
lemma contains_eq_elem {α : Type} [BEq α] (l : List α) (a : α) :
    l.contains a = l.elem a := rfl

/-- A string whose first chunk is nonempty is nonempty. -/
lemma state_json_ne_empty (h t : String) (ls : List String) :
    state_json h t ls ≠ "" := by
  intro heq
  have h2 := congrArg String.data heq
  rw [state_json, String.data_append] at h2
  simp at h2

/-! ### Claim C1 (`SyncState.save` write discipline) -/

/-- Claim C1 as stated is false: `SyncState.save` writes with
`Path.write_text` directly on the state file, so between the truncation
and the write the file holds the empty string — neither the previously
committed cursor record nor the new one — and the visible-state sequence
differs from the write-then-atomic-rename discipline of message writes,
all exhibited at a concrete committed record. -/
theorem claim_C1_counterexample :
    save_states (some (state_json "100" "2024-01-15T10:30:00+00:00" ["INBOX"]))
        "105" "2024-01-16T09:00:00+00:00" ["INBOX"] =
      [some (state_json "100" "2024-01-15T10:30:00+00:00" ["INBOX"]),
       some "",
       some (state_json "105" "2024-01-16T09:00:00+00:00" ["INBOX"])] ∧
    some "" ≠ some (state_json "100" "2024-01-15T10:30:00+00:00" ["INBOX"]) ∧
    some "" ≠ some (state_json "105" "2024-01-16T09:00:00+00:00" ["INBOX"]) ∧
    save_states (some (state_json "100" "2024-01-15T10:30:00+00:00" ["INBOX"]))
        "105" "2024-01-16T09:00:00+00:00" ["INBOX"] ≠
      write_rename_states
        (some (state_json "100" "2024-01-15T10:30:00+00:00" ["INBOX"]))
        (state_json "105" "2024-01-16T09:00:00+00:00" ["INBOX"]) := by
  refine ⟨rfl, by decide, by decide, by decide⟩

/-- Claim C1 (amended): `SyncState.save` writes the JSON record directly
to the state file with `write_text` (truncate, then write), not via the
write-then-atomic-rename discipline of message writes; the crash-visible
states are exactly the old record, the empty file, and the new record, so
a crash between truncation and write loses the previously committed
cursor (the empty file is not any saved record), while a completed save
leaves exactly the new record. -/
theorem claim_C1 : ∀ (old history_id last_sync : String)
    (labels : List String),
    save_states (some old) history_id last_sync labels =
      [some old, some "", some (state_json history_id last_sync labels)] ∧
    (∀ (h t : String) (ls : List String), state_json h t ls ≠ "") := by
  intro old history_id last_sync labels
  exact ⟨rfl, state_json_ne_empty⟩

/-! ### Claim C6 (filename scheme) -/

/-- Claim C6: every write stores exactly one new file, whose name is
bit-for-bit `<deliveryEpochSeconds>.<messageId>.<hostIdentifier>:2,<sortedFlags>`
(with `now` the epoch seconds at delivery into the local store), the
flags being alphabetically sorted; the file lands in `new/` when unread
and `cur/` otherwise. -/
theorem claim_C6 : ∀ (st : MaildirStorage) (folder bytes : String)
    (ls : List String) (message_id : String) (now : Nat),
    (write_message st folder bytes ls message_id now).files =
      st.files ++
        [⟨folder, (if ls.contains "UNREAD" then "new" else "cur"),
          toString now ++ "." ++ message_id ++ "." ++ st.hostname ++ ":2," ++
            labels_to_flags ls, bytes⟩] ∧
    List.Chain' (fun a b => a < b) (labels_to_flags ls).toList := by
  intro st folder bytes ls message_id now
  exact ⟨rfl, flags_chain ls⟩

/-! ### Claim C7 (primary-folder resolution) -/

/-- Resolution rule written from the spec's words: check system labels in
the fixed priority order; if none is present, the first label that is
neither a known system label nor a virtual label resolves to
`Labels/<name>`; if none remain, default to `INBOX`. -/
def primaryFolder_spec (ls : List String) : String :=
  match FOLDER_PRIORITY.find? (fun l => ls.contains l) with
  | some l => label_to_folder l
  | none =>
    match ls.find? (fun l => !(isSystemLabel l) && !(virtual_labels.contains l)) with
    | some l => "Labels/" ++ l
    | none => "INBOX"

/-- Claim C7: `get_primary_folder` implements exactly the deterministic
resolution described by the spec, and in particular
`{SENT, DRAFT, UNREAD}` resolves to `Sent` and `{UNREAD, STARRED}` falls
back to `INBOX`. -/
theorem claim_C7 :
    (∀ ls : List String, get_primary_folder ls = primaryFolder_spec ls) ∧
    get_primary_folder ["SENT", "DRAFT", "UNREAD"] = "Sent" ∧
    get_primary_folder ["UNREAD", "STARRED"] = "INBOX" := by
  refine ⟨?_, by decide, by decide⟩
  intro ls
  unfold get_primary_folder primaryFolder_spec
  have hpred :
      (fun l => !(virtual_labels.contains l) && !(isSystemLabel l)) =
        (fun l => !(isSystemLabel l) && !(virtual_labels.contains l)) := by
    funext l
    exact Bool.and_comm _ _
  rw [hpred]
  rcases hfp : FOLDER_PRIORITY.find? (fun l => ls.contains l) with _ | l
  · rcases hfind : ls.find? (fun l => !(isSystemLabel l) && !(virtual_labels.contains l))
        with _ | l
    · rfl
    · have hp := List.find?_some hfind
      have hsys : isSystemLabel l = false := by
        rcases h : isSystemLabel l
        · rfl
        · rw [h] at hp
          simp at hp
      have hnone : LABEL_FOLDER_MAP.lookup l = none := by
        unfold isSystemLabel at hsys
        rcases h : LABEL_FOLDER_MAP.lookup l
        · rfl
        · rw [h] at hsys
          simp at hsys
      simp [label_to_folder, hnone]
  · rfl

/-! ### Claim C8 (flag derivation) -/

/-- Claim C8: the flag string contains `S` exactly when `UNREAD` is
absent, `F` exactly for `STARRED`, `D` exactly for `DRAFT`, `T` exactly
for `TRASH`; it is alphabetically sorted; and the four spec examples
evaluate as stated. -/
theorem claim_C8 :
    (∀ ls : List String,
      (('S' ∈ (labels_to_flags ls).toList ↔ "UNREAD" ∉ ls) ∧
       ('F' ∈ (labels_to_flags ls).toList ↔ "STARRED" ∈ ls) ∧
       ('D' ∈ (labels_to_flags ls).toList ↔ "DRAFT" ∈ ls) ∧
       ('T' ∈ (labels_to_flags ls).toList ↔ "TRASH" ∈ ls)) ∧
      List.Chain' (fun a b => a < b) (labels_to_flags ls).toList) ∧
    labels_to_flags ["INBOX"] = "S" ∧
    labels_to_flags ["INBOX", "UNREAD"] = "" ∧
    labels_to_flags ["STARRED", "INBOX"] = "FS" ∧
    labels_to_flags ["DRAFT", "STARRED"] = "DFS" := by
  refine ⟨?_, by decide, by decide, by decide, by decide⟩
  intro ls
  refine ⟨?_, flags_chain ls⟩
  by_cases hd : "DRAFT" ∈ ls <;> by_cases hs : "STARRED" ∈ ls <;>
    by_cases hu : "UNREAD" ∈ ls <;> by_cases ht : "TRASH" ∈ ls <;>
      simp [labels_to_flags, contains_eq_elem, List.elem_iff, hd, hs, hu, ht]

/-! ### Claim C10 (corrupted state file) -/

/-- Claim C10: a corrupted (invalid JSON) or unreadable state file makes
`SyncState.load` return `None` instead of raising, `get_history_id`
then returns `None`, and the engine's mode test therefore selects a full
sync. -/
theorem claim_C10 :
    SyncState.load .corrupt = none ∧
    SyncState.load .unreadable = none ∧
    SyncState.get_history_id .corrupt = none ∧
    SyncState.get_history_id .unreadable = none ∧
    (∀ (force_full : Bool) (query : Option String),
      use_incremental (SyncState.get_history_id .corrupt) force_full query = false ∧
      use_incremental (SyncState.get_history_id .unreadable) force_full query = false) := by
  exact ⟨rfl, rfl, rfl, rfl, fun _ _ => ⟨rfl, rfl⟩⟩

/-! ### Engine lemmas -/

/-- Case analysis of one loop body: skip, fetch failure, or fetch + write. -/
lemma syncStep_eq (c : GmailClient) (n : Nat) (acc : RunAcc) (id : String) :
    (message_exists acc.storage id = true ∧
      syncStep c n acc id =
        { acc with result := { acc.result with skipped := acc.result.skipped + 1 } }) ∨
    (message_exists acc.storage id = false ∧
      ((∃ e, c.get_message id = .error e ∧
         syncStep c n acc id =
           { acc with result := (acc.result).add_error id e,
                      fetched := acc.fetched ++ [id] }) ∨
       (∃ msg, c.get_message id = .ok msg ∧
         syncStep c n acc id =
           { result := { acc.result with downloaded := acc.result.downloaded + 1 },
             storage := write_message acc.storage (get_primary_folder msg.labelIds)
               msg.raw msg.labelIds id n,
             highest :=
               (match msg.historyId with
                | none => acc.highest
                | some h => if h == "" then acc.highest else trackHighest acc.highest h),
             observed :=
               (match msg.historyId with
                | none => acc.observed
                | some h => if h == "" then acc.observed else acc.observed ++ [h]),
             fetched := acc.fetched ++ [id],
             written := acc.written ++ [id] }))) := by
  by_cases hex : message_exists acc.storage id = true
  · exact Or.inl ⟨hex, by simp [syncStep, hex]⟩
  · have hex' : message_exists acc.storage id = false := by
      rcases h : message_exists acc.storage id
      · rfl
      · exact absurd h hex
    refine Or.inr ⟨hex', ?_⟩
    rcases hmsg : c.get_message id with e | msg
    · exact Or.inl ⟨e, rfl, by simp [syncStep, hex', hmsg]⟩
    · refine Or.inr ⟨msg, rfl, ?_⟩
      rcases hh : msg.historyId with _ | h
      · simp [syncStep, hex', hmsg, hh]
      · by_cases hemp : (h == "") = true
        · simp [syncStep, hex', hmsg, hh, hemp]
        · have hemp' : (h == "") = false := by
            rcases hb : (h == "")
            · rfl
            · exact absurd hb hemp
          simp [syncStep, hex', hmsg, hh, hemp']

/-- Unfolding of `write_message` to its stored record. -/
lemma write_message_def (st : MaildirStorage) (folder bytes : String)
    (ls : List String) (id : String) (now : Nat) :
    write_message st folder bytes ls id now =
      { st with files := st.files ++
          [⟨folder, if ls.contains "UNREAD" then "new" else "cur",
            generate_filename now st.hostname id (labels_to_flags ls), bytes⟩] } := rfl

/-- One step only appends to the file list and keeps the hostname. -/
lemma syncStep_storage (c : GmailClient) (n : Nat) (acc : RunAcc) (id : String) :
    (∃ d, (syncStep c n acc id).storage.files = acc.storage.files ++ d) ∧
    (syncStep c n acc id).storage.hostname = acc.storage.hostname := by
  rcases syncStep_eq c n acc id with ⟨_, heq⟩ | ⟨_, ⟨e, _, heq⟩ | ⟨msg, _, heq⟩⟩
  · rw [heq]
    exact ⟨⟨[], (List.append_nil _).symm⟩, rfl⟩
  · rw [heq]
    exact ⟨⟨[], (List.append_nil _).symm⟩, rfl⟩
  · rw [heq, write_message_def]
    exact ⟨⟨_, rfl⟩, rfl⟩

/-- The whole loop only appends to the file list and keeps the hostname. -/
lemma processIds_storage (c : GmailClient) (n : Nat) :
    ∀ (ids : List String) (acc : RunAcc),
    (∃ d, (processIds c n acc ids).storage.files = acc.storage.files ++ d) ∧
    (processIds c n acc ids).storage.hostname = acc.storage.hostname
  | [], acc => ⟨⟨[], by simp [processIds]⟩, rfl⟩
  | id :: rest, acc => by
    rcases processIds_storage c n rest (syncStep c n acc id) with ⟨⟨d2, h2⟩, hh2⟩
    rcases syncStep_storage c n acc id with ⟨⟨d1, h1⟩, hh1⟩
    refine ⟨⟨d1 ++ d2, ?_⟩, ?_⟩
    · show (processIds c n (syncStep c n acc id) rest).storage.files = _
      rw [h2, h1, List.append_assoc]
    · show (processIds c n (syncStep c n acc id) rest).storage.hostname = _
      rw [hh2, hh1]

/-- A message that exists keeps existing when files are appended. -/
lemma message_exists_append {st st' : MaildirStorage} (id : String)
    (h : ∃ d, st'.files = st.files ++ d)
    (hex : message_exists st id = true) :
    message_exists st' id = true := by
  rcases h with ⟨d, hd⟩
  unfold message_exists at hex ⊢
  rw [hd, List.any_append, hex, Bool.true_or]

/-- A message that exists before the loop still exists after it. -/
lemma processIds_exists_mono (c : GmailClient) (n : Nat) (ids : List String)
    (acc : RunAcc) (id : String)
    (hex : message_exists acc.storage id = true) :
    message_exists (processIds c n acc ids).storage id = true :=
  message_exists_append id (processIds_storage c n ids acc).1 hex

/-- The generated filename always contains `.<id>.` as a substring. -/
lemma globMatches_generate_self (now : Nat) (host id flags : String) :
    globMatches id (generate_filename now host id flags) = true := by
  unfold globMatches
  apply decide_eq_true
  have hdata :
      (generate_filename now host id flags).toList =
        (toString now).toList ++ ("." ++ id ++ ".").toList ++
          (host ++ ":2," ++ flags).toList := by
    show (generate_filename now host id flags).data =
      (toString now).data ++ ("." ++ id ++ ".").data ++
        (host ++ ":2," ++ flags).data
    simp [generate_filename, String.data_append, List.append_assoc]
  rw [hdata]
  exact List.infix_append _ _ _

/-- Writing a message makes it exist: its fresh filename contains
`.<id>.` and it lands under `cur/` or `new/`. -/
lemma write_message_exists (st : MaildirStorage) (folder bytes : String)
    (ls : List String) (id : String) (now : Nat) :
    message_exists (write_message st folder bytes ls id now) id = true := by
  rw [write_message_def]
  unfold message_exists
  rw [List.any_append]
  have hone :
      List.any
        [(⟨folder, if ls.contains "UNREAD" then "new" else "cur",
           generate_filename now st.hostname id (labels_to_flags ls), bytes⟩ :
          MaildirFile)]
        (fun f => (f.subdir == "cur" || f.subdir == "new") &&
          globMatches id f.filename) = true := by
    simp only [List.any_cons, List.any_nil, Bool.or_false]
    by_cases h : ls.contains "UNREAD" = true
    · rw [if_pos h, globMatches_generate_self]
      rfl
    · rw [if_neg h, globMatches_generate_self]
      rfl
  rw [hone, Bool.or_true]

/-- Sum of the three counters of a result. -/
def SyncResult.total (r : SyncResult) : Nat := r.downloaded + r.skipped + r.errors

/-- One step increments exactly one counter. -/
lemma syncStep_total (c : GmailClient) (n : Nat) (acc : RunAcc) (id : String) :
    (syncStep c n acc id).result.total = acc.result.total + 1 := by
  rcases syncStep_eq c n acc id with ⟨_, heq⟩ | ⟨_, ⟨e, _, heq⟩ | ⟨msg, _, heq⟩⟩ <;>
    rw [heq] <;> simp [SyncResult.total, SyncResult.add_error] <;> omega

/-- One step never decreases the error counter, and increases it by at
most one. -/
lemma syncStep_errors (c : GmailClient) (n : Nat) (acc : RunAcc) (id : String) :
    acc.result.errors ≤ (syncStep c n acc id).result.errors := by
  rcases syncStep_eq c n acc id with ⟨_, heq⟩ | ⟨_, ⟨e, _, heq⟩ | ⟨msg, _, heq⟩⟩ <;>
    rw [heq] <;> simp [SyncResult.add_error]

/-- The loop processes each id exactly once: the counter sum grows by the
length of the list. -/
lemma processIds_total (c : GmailClient) (n : Nat) :
    ∀ (ids : List String) (acc : RunAcc),
    (processIds c n acc ids).result.total = acc.result.total + ids.length
  | [], acc => by simp [processIds]
  | id :: rest, acc => by
    show (processIds c n (syncStep c n acc id) rest).result.total = _
    rw [processIds_total c n rest (syncStep c n acc id), syncStep_total]
    simp [Nat.add_assoc, Nat.add_comm]

/-- The error counter never decreases across the loop. -/
lemma processIds_errors (c : GmailClient) (n : Nat) :
    ∀ (ids : List String) (acc : RunAcc),
    acc.result.errors ≤ (processIds c n acc ids).result.errors
  | [], acc => Nat.le_refl _
  | id :: rest, acc =>
    Nat.le_trans (syncStep_errors c n acc id)
      (processIds_errors c n rest (syncStep c n acc id))

/-- When a loop run records no new error, every processed id exists in
the final storage: skipped ids already existed, and fetched ids were
written. -/
lemma processIds_all_exist (c : GmailClient) (n : Nat) :
    ∀ (ids : List String) (acc : RunAcc),
    (processIds c n acc ids).result.errors = acc.result.errors →
    ∀ id ∈ ids, message_exists (processIds c n acc ids).storage id = true := by
  intro ids
  induction ids with
  | nil => intro acc _ id hmem; cases hmem
  | cons id0 rest ih =>
    intro acc herr id hmem
    have hstep : processIds c n acc (id0 :: rest) =
        processIds c n (syncStep c n acc id0) rest := rfl
    rcases syncStep_eq c n acc id0 with ⟨hex, heq⟩ | ⟨hex, ⟨e, _, heq⟩ | ⟨msg, _, heq⟩⟩
    · -- skip branch
      rcases List.mem_cons.mp hmem with rfl | hmem'
      · have hstill : message_exists (syncStep c n acc id).storage id = true := by
          rw [heq]
          exact hex
        rw [hstep]
        exact processIds_exists_mono c n rest _ id hstill
      · rw [hstep]
        refine ih (syncStep c n acc id0) ?_ id hmem'
        rw [hstep] at herr
        rw [herr, heq]
      -- error branch: contradicts the unchanged error counter
    · exfalso
      have h1 : (syncStep c n acc id0).result.errors = acc.result.errors + 1 := by
        rw [heq]
        simp [SyncResult.add_error]
      have h2 := processIds_errors c n rest (syncStep c n acc id0)
      rw [hstep] at herr
      omega
    · -- fetch-and-write branch
      rcases List.mem_cons.mp hmem with rfl | hmem'
      · have hstill : message_exists (syncStep c n acc id).storage id = true := by
          rw [heq]
          exact write_message_exists _ _ _ _ _ _
        rw [hstep]
        exact processIds_exists_mono c n rest _ id hstill
      · rw [hstep]
        refine ih (syncStep c n acc id0) ?_ id hmem'
        rw [hstep] at herr
        rw [herr, heq]

/-- When every id in the list already exists, the loop counts them all as
skipped and changes nothing else. -/
lemma processIds_all_skip (c : GmailClient) (n : Nat) :
    ∀ (ids : List String) (acc : RunAcc),
    (∀ id ∈ ids, message_exists acc.storage id = true) →
    processIds c n acc ids =
      { acc with result :=
          { acc.result with skipped := acc.result.skipped + ids.length } } := by
  intro ids
  induction ids with
  | nil => intro acc _; rfl
  | cons id0 rest ih =>
    intro acc hex
    have hstep : processIds c n acc (id0 :: rest) =
        processIds c n (syncStep c n acc id0) rest := rfl
    rcases syncStep_eq c n acc id0 with ⟨_, heq⟩ | ⟨hfalse, _⟩
    · rw [hstep, heq]
      have hex' : ∀ id ∈ rest,
          message_exists ({ acc with result :=
            { acc.result with skipped := acc.result.skipped + 1 } } : RunAcc).storage
            id = true := by
        intro id hid
        exact hex id (List.mem_cons_of_mem _ hid)
      rw [ih _ hex']
      have hlen : acc.result.skipped + 1 + rest.length =
          acc.result.skipped + (id0 :: rest).length := by
        simp [List.length_cons]
        omega
      simp [hlen]
    · have hcontra := hex id0 (List.mem_cons_self _ _)
      rw [hfalse] at hcontra
      cases hcontra

/-- Total number of ids the full-sync loops process: the ids listed per
requested label, counted with multiplicity across labels. -/
def listedTotal (c : GmailClient) (query : Option String) (m : Nat)
    (labels : List String) : Nat :=
  (labels.map (fun l => (c.list_messages l query m).length)).sum

/-- The label loop only appends to the file list and keeps the hostname. -/
lemma fullLabels_storage (c : GmailClient) (query : Option String) (m now : Nat) :
    ∀ (labels : List String) (acc : RunAcc),
    (∃ d, (fullLabels c query m now acc labels).storage.files =
      acc.storage.files ++ d) ∧
    (fullLabels c query m now acc labels).storage.hostname =
      acc.storage.hostname
  | [], acc => ⟨⟨[], (List.append_nil _).symm⟩, rfl⟩
  | label :: rest, acc => by
    have hstep : fullLabels c query m now acc (label :: rest) =
        fullLabels c query m now
          (processIds c now acc (c.list_messages label query m)) rest := rfl
    rcases fullLabels_storage c query m now rest
        (processIds c now acc (c.list_messages label query m)) with ⟨⟨d2, h2⟩, hh2⟩
    rcases processIds_storage c now (c.list_messages label query m) acc
      with ⟨⟨d1, h1⟩, hh1⟩
    refine ⟨⟨d1 ++ d2, ?_⟩, ?_⟩
    · rw [hstep, h2, h1, List.append_assoc]
    · rw [hstep, hh2, hh1]

/-- A message that exists before the label loop still exists after it. -/
lemma fullLabels_exists_mono (c : GmailClient) (query : Option String)
    (m now : Nat) (labels : List String) (acc : RunAcc) (id : String)
    (hex : message_exists acc.storage id = true) :
    message_exists (fullLabels c query m now acc labels).storage id = true :=
  message_exists_append id (fullLabels_storage c query m now labels acc).1 hex

/-- The error counter never decreases across the label loop. -/
lemma fullLabels_errors (c : GmailClient) (query : Option String) (m now : Nat) :
    ∀ (labels : List String) (acc : RunAcc),
    acc.result.errors ≤ (fullLabels c query m now acc labels).result.errors
  | [], _ => Nat.le_refl _
  | label :: rest, acc =>
    Nat.le_trans (processIds_errors c now (c.list_messages label query m) acc)
      (fullLabels_errors c query m now rest
        (processIds c now acc (c.list_messages label query m)))

/-- The label loop processes every listed id exactly once. -/
lemma fullLabels_total (c : GmailClient) (query : Option String) (m now : Nat) :
    ∀ (labels : List String) (acc : RunAcc),
    (fullLabels c query m now acc labels).result.total =
      acc.result.total + listedTotal c query m labels
  | [], acc => by simp [fullLabels, listedTotal]
  | label :: rest, acc => by
    have hstep : fullLabels c query m now acc (label :: rest) =
        fullLabels c query m now
          (processIds c now acc (c.list_messages label query m)) rest := rfl
    rw [hstep, fullLabels_total c query m now rest, processIds_total]
    simp [listedTotal]
    omega

/-- When a run records no error, every id listed for any requested label
exists in the final storage. -/
lemma fullLabels_all_exist (c : GmailClient) (query : Option String)
    (m now : Nat) :
    ∀ (labels : List String) (acc : RunAcc),
    (fullLabels c query m now acc labels).result.errors = acc.result.errors →
    ∀ label ∈ labels, ∀ id ∈ c.list_messages label query m,
      message_exists (fullLabels c query m now acc labels).storage id = true := by
  intro labels
  induction labels with
  | nil => intro acc _ label hmem; cases hmem
  | cons label0 rest ih =>
    intro acc herr label hmem id hid
    have hstep : fullLabels c query m now acc (label0 :: rest) =
        fullLabels c query m now
          (processIds c now acc (c.list_messages label0 query m)) rest := rfl
    have herr1 : (processIds c now acc (c.list_messages label0 query m)).result.errors
        = acc.result.errors := by
      have hl := processIds_errors c now (c.list_messages label0 query m) acc
      have hr := fullLabels_errors c query m now rest
        (processIds c now acc (c.list_messages label0 query m))
      rw [hstep] at herr
      omega
    rcases List.mem_cons.mp hmem with rfl | hmem'
    · have hex1 := processIds_all_exist c now (c.list_messages label query m) acc
        herr1 id hid
      rw [hstep]
      exact fullLabels_exists_mono c query m now rest _ id hex1
    · rw [hstep]
      refine ih _ ?_ label hmem' id hid
      rw [hstep] at herr
      rw [herr, herr1]

/-- When every listed id already exists, every label's loop only skips:
the run returns `skipped = listedTotal` and changes nothing else. -/
lemma fullLabels_all_skip (c : GmailClient) (query : Option String)
    (m now : Nat) :
    ∀ (labels : List String) (acc : RunAcc),
    (∀ label ∈ labels, ∀ id ∈ c.list_messages label query m,
      message_exists acc.storage id = true) →
    fullLabels c query m now acc labels =
      { acc with result :=
          { acc.result with skipped :=
              acc.result.skipped + listedTotal c query m labels } } := by
  intro labels
  induction labels with
  | nil => intro acc _; rfl
  | cons label0 rest ih =>
    intro acc hex
    have hstep : fullLabels c query m now acc (label0 :: rest) =
        fullLabels c query m now
          (processIds c now acc (c.list_messages label0 query m)) rest := rfl
    have h1 := processIds_all_skip c now (c.list_messages label0 query m) acc
      (hex label0 (List.mem_cons_self _ _))
    rw [hstep, h1]
    have hex' : ∀ label ∈ rest, ∀ id ∈ c.list_messages label query m,
        message_exists ({ acc with result := { acc.result with skipped :=
          acc.result.skipped + (c.list_messages label0 query m).length } } :
            RunAcc).storage id = true := by
      intro label hl id hid
      exact hex label (List.mem_cons_of_mem _ hl) id hid
    rw [ih _ hex']
    have hlen : acc.result.skipped + (c.list_messages label0 query m).length +
        listedTotal c query m rest =
        acc.result.skipped + listedTotal c query m (label0 :: rest) := by
      simp [listedTotal]
      omega
    simp [hlen]

/-! ### Claim C9 (full-sync idempotence) -/

/-- Claim C9: if a full sync over some labels ends with `downloaded = N`,
`skipped = 0`, `errors = 0`, then a second full sync against the same
(unchanged) remote and the resulting local state returns
`downloaded = 0, skipped = N, errors = 0`: every id listed again already
exists and is counted as skipped instead of re-fetched. -/
theorem claim_C9 : ∀ (client : GmailClient) (st : EngineState)
    (labels : List String) (max_messages : Nat) (query : Option String)
    (now now2 N : Nat),
    (full_sync client st labels max_messages query now).result.downloaded = N →
    (full_sync client st labels max_messages query now).result.skipped = 0 →
    (full_sync client st labels max_messages query now).result.errors = 0 →
    (full_sync client (full_sync client st labels max_messages query now).state
      labels max_messages query now2).result = ⟨0, N, 0, []⟩ := by
  intro client st labels m query now now2 N hd hs he
  have hacc1 : (full_sync client st labels m query now).result =
      (fullLabels client query m now (initAcc st) labels).result := rfl
  have hsto1 : (full_sync client st labels m query now).state.storage =
      (fullLabels client query m now (initAcc st) labels).storage := rfl
  -- every id listed in run 1 exists in run 1's final storage
  have herr0 : (fullLabels client query m now (initAcc st) labels).result.errors =
      (initAcc st).result.errors := by
    rw [← hacc1, he]
    rfl
  have hallex := fullLabels_all_exist client query m now labels (initAcc st) herr0
  -- run 2 starts from run 1's storage, so it only skips
  have hinit2 : (initAcc (full_sync client st labels m query now).state).storage =
      (fullLabels client query m now (initAcc st) labels).storage := hsto1
  have hex2 : ∀ label ∈ labels, ∀ id ∈ client.list_messages label query m,
      message_exists
        (initAcc (full_sync client st labels m query now).state).storage id =
        true := by
    intro label hl id hid
    rw [hinit2]
    exact hallex label hl id hid
  have hskip := fullLabels_all_skip client query m now2 labels
    (initAcc (full_sync client st labels m query now).state) hex2
  have hacc2 : (full_sync client
      (full_sync client st labels m query now).state labels m query now2).result =
      (fullLabels client query m now2
        (initAcc (full_sync client st labels m query now).state) labels).result :=
    rfl
  rw [hacc2, hskip]
  -- the listed total equals N, by counting run 1
  have htot := fullLabels_total client query m now labels (initAcc st)
  have htot1 : (fullLabels client query m now (initAcc st) labels).result.total =
      N := by
    rw [← hacc1] at htot ⊢
    unfold SyncResult.total
    rw [hd, hs, he]
    omega
  have hln : listedTotal client query m labels = N := by
    have hinit : (initAcc st).result.total = 0 := rfl
    rw [htot1, hinit] at htot
    omega
  show ({ downloaded := 0, skipped := 0 + listedTotal client query m labels,
          errors := 0, error_details := [] } : SyncResult) = _
  rw [hln]
  simp

/-! ### The highest-observed-sequence invariant (claim C2) -/

/-- Folding the `highest_history_id` update over a list of observed ids. -/
def highestOf (l : List String) : Option String := l.foldl trackHighest none

/-- Boolean check that `h` occurs in `l` and dominates it numerically. -/
def isMaxOf (h : String) (l : List String) : Bool :=
  l.contains h && l.all (fun x => decide (pyInt x ≤ pyInt h))

/-- Branch equation: the id already exists. -/
lemma syncStep_skip {c : GmailClient} {n : Nat} {acc : RunAcc} {id : String}
    (hex : message_exists acc.storage id = true) :
    syncStep c n acc id =
      { acc with result := { acc.result with skipped := acc.result.skipped + 1 } } := by
  simp [syncStep, hex]

/-- Branch equation: fetch fails. -/
lemma syncStep_err {c : GmailClient} {n : Nat} {acc : RunAcc} {id e : String}
    (hex : message_exists acc.storage id = false)
    (hmsg : c.get_message id = .error e) :
    syncStep c n acc id =
      { acc with result := acc.result.add_error id e,
                 fetched := acc.fetched ++ [id] } := by
  simp [syncStep, hex, hmsg]

/-- Branch equation: fetch succeeds but the message carries no truthy
`historyId`. -/
lemma syncStep_ok_quiet {c : GmailClient} {n : Nat} {acc : RunAcc} {id : String}
    {msg : Message} (hex : message_exists acc.storage id = false)
    (hmsg : c.get_message id = .ok msg)
    (hh : msg.historyId = none ∨ msg.historyId = some "") :
    syncStep c n acc id =
      { result := { acc.result with downloaded := acc.result.downloaded + 1 },
        storage := write_message acc.storage (get_primary_folder msg.labelIds)
          msg.raw msg.labelIds id n,
        highest := acc.highest,
        observed := acc.observed,
        fetched := acc.fetched ++ [id],
        written := acc.written ++ [id] } := by
  rcases hh with hh | hh <;> simp [syncStep, hex, hmsg, hh]

/-- Branch equation: fetch succeeds with a truthy `historyId`. -/
lemma syncStep_ok_track {c : GmailClient} {n : Nat} {acc : RunAcc}
    {id h : String} {msg : Message}
    (hex : message_exists acc.storage id = false)
    (hmsg : c.get_message id = .ok msg)
    (hh : msg.historyId = some h) (hne : (h == "") = false) :
    syncStep c n acc id =
      { result := { acc.result with downloaded := acc.result.downloaded + 1 },
        storage := write_message acc.storage (get_primary_folder msg.labelIds)
          msg.raw msg.labelIds id n,
        highest := trackHighest acc.highest h,
        observed := acc.observed ++ [h],
        fetched := acc.fetched ++ [id],
        written := acc.written ++ [id] } := by
  simp [syncStep, hex, hmsg, hh, hne]

/-- The bookkeeping invariant of a run: `highest` is the fold of the
observed ids, nothing is observed before anything is fetched, and a
`some` value of `highest` is a truthy observed id dominating all
observed ids. -/
def RunInv (acc : RunAcc) : Prop :=
  acc.highest = highestOf acc.observed ∧
  (acc.fetched = [] → acc.observed = []) ∧
  (acc.highest = none → acc.observed = []) ∧
  (∀ h, acc.highest = some h →
    h ∈ acc.observed ∧ h ≠ "" ∧ ∀ x ∈ acc.observed, pyInt x ≤ pyInt h)

/-- The starting accumulator satisfies the invariant. -/
lemma initAcc_inv (st : EngineState) : RunInv (initAcc st) := by
  refine ⟨rfl, fun _ => rfl, fun _ => rfl, fun h hcontra => ?_⟩
  cases hcontra

/-- One step preserves the bookkeeping invariant. -/
lemma syncStep_inv (c : GmailClient) (n : Nat) (acc : RunAcc) (id : String)
    (hinv : RunInv acc) : RunInv (syncStep c n acc id) := by
  obtain ⟨hfold, hfetch, hnone, hsome⟩ := hinv
  by_cases hex : message_exists acc.storage id = true
  · rw [syncStep_skip hex]
    exact ⟨hfold, hfetch, hnone, hsome⟩
  · have hex' : message_exists acc.storage id = false := by
      rcases hb : message_exists acc.storage id
      · rfl
      · exact absurd hb hex
    rcases hmsg : c.get_message id with e | msg
    · rw [syncStep_err hex' hmsg]
      refine ⟨hfold, ?_, hnone, hsome⟩
      intro hcontra
      exact absurd hcontra (by simp)
    · rcases hh : msg.historyId with _ | h
      · rw [syncStep_ok_quiet hex' hmsg (Or.inl hh)]
        refine ⟨hfold, ?_, hnone, hsome⟩
        intro hcontra
        exact absurd hcontra (by simp)
      · by_cases hemp : (h == "") = true
        · have : h = "" := by
            exact eq_of_beq hemp
          rw [syncStep_ok_quiet hex' hmsg (Or.inr (this ▸ hh))]
          refine ⟨hfold, ?_, hnone, hsome⟩
          intro hcontra
          exact absurd hcontra (by simp)
        · have hemp' : (h == "") = false := by
            rcases hb : (h == "")
            · rfl
            · exact absurd hb hemp
          have hne : h ≠ "" := by
            intro hcontra
            rw [hcontra] at hemp'
            simp at hemp'
          rw [syncStep_ok_track hex' hmsg hh hemp']
          refine ⟨?_, ?_, ?_, ?_⟩
          · show trackHighest acc.highest h = highestOf (acc.observed ++ [h])
            rw [hfold]
            unfold highestOf
            rw [List.foldl_append]
            rfl
          · intro hcontra
            exact absurd hcontra (by simp)
          · intro hcontra
            have h3 : trackHighest acc.highest h = none := hcontra
            exfalso
            rcases hcase : acc.highest with _ | a
            · rw [hcase] at h3
              simp only [trackHighest] at h3
              cases h3
            · rw [hcase] at h3
              simp only [trackHighest] at h3
              by_cases hgt : pyInt h > pyInt a
              · rw [if_pos hgt] at h3
                cases h3
              · rw [if_neg hgt] at h3
                cases h3
          · intro h' heq'
            have heq2 : trackHighest acc.highest h = some h' := heq'
            show h' ∈ acc.observed ++ [h] ∧ h' ≠ "" ∧
              ∀ x ∈ acc.observed ++ [h], pyInt x ≤ pyInt h'
            rcases hcase : acc.highest with _ | a
            · have hobs : acc.observed = [] := hnone hcase
              rw [hcase] at heq2
              simp only [trackHighest] at heq2
              have hh' : h' = h := by
                cases heq2
                rfl
              subst hh'
              refine ⟨List.mem_append_right _ (List.mem_singleton_self _), hne, ?_⟩
              intro x hx
              rw [hobs] at hx
              simp at hx
              rw [hx]
            · obtain ⟨hmem, hne_a, hbound⟩ := hsome a hcase
              rw [hcase] at heq2
              simp only [trackHighest] at heq2
              by_cases hgt : pyInt h > pyInt a
              · rw [if_pos hgt] at heq2
                have hh' : h' = h := by
                  cases heq2
                  rfl
                subst hh'
                refine ⟨List.mem_append_right _ (List.mem_singleton_self _), hne, ?_⟩
                intro x hx
                rcases List.mem_append.mp hx with hx | hx
                · exact Nat.le_trans (hbound x hx) (Nat.le_of_lt hgt)
                · rw [List.mem_singleton.mp hx]
              · rw [if_neg hgt] at heq2
                have hh' : h' = a := by
                  cases heq2
                  rfl
                subst hh'
                refine ⟨List.mem_append_left _ hmem, hne_a, ?_⟩
                intro x hx
                rcases List.mem_append.mp hx with hx | hx
                · exact hbound x hx
                · rw [List.mem_singleton.mp hx]
                  omega

/-- The per-id loop preserves the bookkeeping invariant. -/
lemma processIds_inv (c : GmailClient) (n : Nat) :
    ∀ (ids : List String) (acc : RunAcc), RunInv acc →
    RunInv (processIds c n acc ids)
  | [], _, hinv => hinv
  | id :: rest, acc, hinv =>
    processIds_inv c n rest (syncStep c n acc id) (syncStep_inv c n acc id hinv)

/-- The label loop preserves the bookkeeping invariant. -/
lemma fullLabels_inv (c : GmailClient) (query : Option String) (m now : Nat) :
    ∀ (labels : List String) (acc : RunAcc), RunInv acc →
    RunInv (fullLabels c query m now acc labels)
  | [], _, hinv => hinv
  | label :: rest, acc, hinv =>
    fullLabels_inv c query m now rest
      (processIds c now acc (c.list_messages label query m))
      (processIds_inv c now (c.list_messages label query m) acc hinv)

/-! ### Concrete fixtures for the spec scenarios -/

/-- Scenario A remote: label `INBOX` lists ids `A` and `B`, fetchable
with sequences `10` and `20`; any other label lists nothing. -/
def exClientA : GmailClient :=
  { list_messages := fun label _ _ => if label == "INBOX" then ["A", "B"] else [],
    get_message := fun id =>
      if id == "A" then .ok ⟨["INBOX"], some "10", "rawA"⟩
      else if id == "B" then .ok ⟨["INBOX"], some "20", "rawB"⟩
      else .error "not found",
    list_history := fun _ _ => .http 404 }

/-- Cold-start local state: empty Maildir, no stored cursor. -/
def exState0 : EngineState := ⟨⟨"host", []⟩, none⟩

/-! ### Claim C2 (full-sync cursor commit) -/

/-- Claim C2: in every full-sync run, if nothing was fetched the committed
cursor is left untouched, and if at least one sequence number was
observed the cursor is committed with the numeric maximum of the observed
sequences and the processed label set; in particular, Scenario A (cold
start, ids `A`/`B` with sequences `10`/`20`) returns
`{downloaded: 2, skipped: 0, errors: 0}` and commits cursor `20`. -/
theorem claim_C2 :
    (∀ (client : GmailClient) (st : EngineState) (labels : List String)
        (max_messages : Nat) (query : Option String) (now : Nat),
      ((full_sync client st labels max_messages query now).fetched = [] →
        (full_sync client st labels max_messages query now).state.cursor =
          st.cursor) ∧
      ((full_sync client st labels max_messages query now).observed ≠ [] →
        (full_sync client st labels max_messages query now).state.cursor =
          some ⟨(highestOf
            (full_sync client st labels max_messages query now).observed).getD "",
            labels⟩ ∧
        isMaxOf
          ((highestOf
            (full_sync client st labels max_messages query now).observed).getD "")
          ((full_sync client st labels max_messages query now).observed) =
          true)) ∧
    (full_sync exClientA exState0 ["INBOX"] 100 none 7).result = ⟨2, 0, 0, []⟩ ∧
    (full_sync exClientA exState0 ["INBOX"] 100 none 7).state.cursor =
      some ⟨"20", ["INBOX"]⟩ := by
  refine ⟨?_, by rfl, by rfl⟩
  intro client st labels m query now
  obtain ⟨hfold, hfetch, hnone, hsome⟩ :=
    fullLabels_inv client query m now labels (initAcc st) (initAcc_inv st)
  constructor
  · intro hf
    have hobs : (fullLabels client query m now (initAcc st) labels).observed = [] :=
      hfetch hf
    have hhigh : (fullLabels client query m now (initAcc st) labels).highest =
        none := by
      rw [hfold, hobs]
      rfl
    show (match (fullLabels client query m now (initAcc st) labels).highest with
      | none => st.cursor
      | some h => if h == "" then st.cursor else some ⟨h, labels⟩) = st.cursor
    rw [hhigh]
  · intro hobs_ne
    rcases hcase : (fullLabels client query m now (initAcc st) labels).highest
      with _ | h
    · exact absurd (hnone hcase) hobs_ne
    · obtain ⟨hmem, hne, hbound⟩ := hsome h hcase
      have hgetD :
          (highestOf
            (fullLabels client query m now (initAcc st) labels).observed).getD "" =
            h := by
        rw [← hfold, hcase]
        rfl
      have hbeq : (h == "") = false := beq_eq_false_iff_ne.mpr hne
      constructor
      · show (match (fullLabels client query m now (initAcc st) labels).highest with
          | none => st.cursor
          | some h => if h == "" then st.cursor else some ⟨h, labels⟩) =
            some ⟨(highestOf
              (fullLabels client query m now (initAcc st) labels).observed).getD "",
              labels⟩
        rw [hcase, hgetD]
        simp [hbeq]
      · show isMaxOf
            ((highestOf
              (fullLabels client query m now (initAcc st) labels).observed).getD "")
            ((fullLabels client query m now (initAcc st) labels).observed) = true
        rw [hgetD]
        unfold isMaxOf
        have h1 : (fullLabels client query m now (initAcc st) labels).observed.contains
            h = true := List.elem_iff.mpr hmem
        have h2 : (fullLabels client query m now (initAcc st) labels).observed.all
            (fun x => decide (pyInt x ≤ pyInt h)) = true := by
          refine List.all_eq_true.mpr ?_
          intro x hx
          exact decide_eq_true (hbound x hx)
        rw [h1, h2]
        rfl

/-- Scenario-A witness for claim C2: both the untouched-cursor case (a
label listing nothing) and the committed-maximum case (Scenario A). -/
theorem claim_C2_witness :
    ((full_sync exClientA exState0 ["OTHER"] 100 none 7).fetched = [] ∧
      (full_sync exClientA exState0 ["OTHER"] 100 none 7).state.cursor =
        exState0.cursor) ∧
    ((full_sync exClientA exState0 ["INBOX"] 100 none 7).observed ≠ [] ∧
      ((full_sync exClientA exState0 ["INBOX"] 100 none 7).state.cursor =
        some ⟨(highestOf
          (full_sync exClientA exState0 ["INBOX"] 100 none 7).observed).getD "",
          ["INBOX"]⟩ ∧
       isMaxOf
         ((highestOf
           (full_sync exClientA exState0 ["INBOX"] 100 none 7).observed).getD "")
         ((full_sync exClientA exState0 ["INBOX"] 100 none 7).observed) =
         true)) := by
  refine ⟨⟨by rfl, (claim_C2.1 exClientA exState0 ["OTHER"] 100 none 7).1 (by rfl)⟩,
          ⟨by decide, (claim_C2.1 exClientA exState0 ["INBOX"] 100 none 7).2 (by decide)⟩⟩

/-- Scenario-A witness for claim C9: a clean first run over `INBOX`
downloads 2 and an identical second run skips both. -/
theorem claim_C9_witness :
    (full_sync exClientA exState0 ["INBOX"] 100 none 7).result.downloaded = 2 ∧
    (full_sync exClientA exState0 ["INBOX"] 100 none 7).result.skipped = 0 ∧
    (full_sync exClientA exState0 ["INBOX"] 100 none 7).result.errors = 0 ∧
    (full_sync exClientA (full_sync exClientA exState0 ["INBOX"] 100 none 7).state
      ["INBOX"] 100 none 8).result = ⟨0, 2, 0, []⟩ :=
  ⟨by rfl, by rfl, by rfl,
   claim_C9 exClientA exState0 ["INBOX"] 100 none 7 8 2 (by rfl) (by rfl) (by rfl)⟩

/-! ### Claim C3 (incremental cursor commit) -/

/-- Scenario B remote: caught-up account; `listChanges("INBOX")` from
cursor `100` returns no additions and new sequence `105`. -/
def exClientB : GmailClient :=
  { list_messages := fun _ _ _ => [],
    get_message := fun _ => .error "no fetch expected",
    list_history := fun start label =>
      if start == "100" && label == "INBOX" then .ok ⟨[], some "105"⟩
      else .http 500 }

/-- Scenario B local state: stored cursor `100` over `INBOX`. -/
def exStateB : EngineState := ⟨⟨"host", []⟩, some ⟨"100", ["INBOX"]⟩⟩

/-- The output Scenario B produces. -/
def exOutB : SyncOut :=
  ⟨⟨0, 0, 0, []⟩, ⟨⟨"host", []⟩, some ⟨"105", ["INBOX"]⟩⟩, [], [], []⟩

/-- Claim C3: whenever the `list_history` loop completes (so every label
answered, and the tracked sequence is the numeric maximum returned), the
new cursor is committed unconditionally — whatever the download counts
were, in particular with zero newly fetched messages. -/
theorem claim_C3 : ∀ (client : GmailClient) (st : EngineState)
    (labels : List String) (enumerate : List String → List String)
    (now : Nat) (start current : String) (ids : List String),
    get_history_id st = some start → start ≠ "" →
    listChangesPhase client start [] start labels = .done ids current →
    ∀ out, incremental_sync client st labels enumerate now = .ok out →
    out.state.cursor = some ⟨current, labels⟩ := by
  intro client st labels enumerate now start current ids h1 h2 h3 out hout
  have hbeq : (start == "") = false := beq_eq_false_iff_ne.mpr h2
  unfold incremental_sync at hout
  simp only [h1, hbeq, Bool.false_eq_true, if_false, h3] at hout
  have hinj := Except.ok.inj hout
  rw [← hinj]

/-- Scenario-B witness for claim C3: stored cursor `100`, `listChanges`
returns `{added: [], newSequence: 105}`, the run ends
`{downloaded: 0, skipped: 0, errors: 0}` and commits cursor `105`. -/
theorem claim_C3_witness :
    get_history_id exStateB = some "100" ∧
    ("100" : String) ≠ "" ∧
    listChangesPhase exClientB "100" [] "100" ["INBOX"] = .done [] "105" ∧
    incremental_sync exClientB exStateB ["INBOX"] (fun l => l) 7 = .ok exOutB ∧
    exOutB.result = ⟨0, 0, 0, []⟩ ∧
    exOutB.state.cursor = some ⟨"105", ["INBOX"]⟩ :=
  ⟨by rfl, by decide, by rfl, by rfl, by rfl,
   claim_C3 exClientB exStateB ["INBOX"] (fun l => l) 7 "100" "105" []
     (by rfl) (by decide) (by rfl) exOutB (by rfl)⟩

/-! ### Claim C4 (cursor-expiry fallback) -/

/-- An outcome the incremental loop re-raises: an `HttpError` whose
status is not 404. -/
def isRaise : HistOutcome → Bool
  | .http status => !(status == 404)
  | .ok _ => false

/-- If some label answers 404 and no earlier label re-raises, the
`list_history` loop falls back. -/
lemma listChangesPhase_fallback (client : GmailClient) (start : String) :
    ∀ (labels : List String) (j : Nat) (acc : List String) (current : String),
    j < labels.length →
    client.list_history start (labels.getD j "") = .http 404 →
    (∀ i, i < j → isRaise (client.list_history start (labels.getD i "")) = false) →
    listChangesPhase client start acc current labels = .fallback := by
  intro labels
  induction labels with
  | nil =>
    intro j acc current hj
    cases hj
  | cons label0 rest ih =>
    intro j acc current hj h404 hbefore
    cases j with
    | zero =>
      have h0 : client.list_history start label0 = .http 404 := h404
      show (match client.list_history start label0 with
        | .http status => if status == 404 then HistPhase.fallback
                          else HistPhase.raised status
        | .ok hr => listChangesPhase client start (collectAdded acc hr)
            (updateCurrent current hr) rest) = .fallback
      rw [h0]
      rfl
    | succ k =>
      rcases hout : client.list_history start label0 with hr | s
      · have hrec := ih k (collectAdded acc hr) (updateCurrent current hr)
          (Nat.lt_of_succ_lt_succ hj) h404
          (fun i hi => hbefore (i + 1) (Nat.succ_lt_succ hi))
        show (match client.list_history start label0 with
          | .http status => if status == 404 then HistPhase.fallback
                            else HistPhase.raised status
          | .ok hr => listChangesPhase client start (collectAdded acc hr)
              (updateCurrent current hr) rest) = .fallback
        rw [hout]
        exact hrec
      · have h0 : isRaise (.http s) = false := by
          rw [← hout]
          exact hbefore 0 (Nat.succ_pos k)
        simp only [isRaise] at h0
        have hs : (s == 404) = true := by
          rcases hb : (s == 404)
          · rw [hb] at h0
            cases h0
          · rfl
        show (match client.list_history start label0 with
          | .http status => if status == 404 then HistPhase.fallback
                            else HistPhase.raised status
          | .ok hr => listChangesPhase client start (collectAdded acc hr)
              (updateCurrent current hr) rest) = .fallback
        rw [hout]
        simp [hs]

/-- Claim C4: if any requested label's `listChanges` raises
`CursorExpired` (HTTP 404) — and no earlier label re-raised a different
error — the incremental run returns exactly the result of a full sync
over all originally requested labels: `CursorExpired` never reaches the
caller, and counts, storage and cursor equal the full-sync baseline. -/
theorem claim_C4 : ∀ (client : GmailClient) (st : EngineState)
    (labels : List String) (enumerate : List String → List String)
    (now : Nat) (start : String) (j : Nat),
    get_history_id st = some start → start ≠ "" →
    j < labels.length →
    client.list_history start (labels.getD j "") = .http 404 →
    (∀ i, i < j → isRaise (client.list_history start (labels.getD i "")) = false) →
    incremental_sync client st labels enumerate now =
      .ok (full_sync client st labels 100 none now) := by
  intro client st labels enumerate now start j h1 h2 hj h404 hbefore
  have hbeq : (start == "") = false := beq_eq_false_iff_ne.mpr h2
  unfold incremental_sync
  simp only [h1, hbeq, Bool.false_eq_true, if_false,
    listChangesPhase_fallback client start labels j [] start hj h404 hbefore]

/-- Witness for claim C4: a stored cursor `50` whose `listChanges`
answers 404 for `INBOX`, so the run equals the full-sync baseline
(Scenario A's remote), downloading both listed messages. -/
theorem claim_C4_witness :
    get_history_id (⟨⟨"host", []⟩, some ⟨"50", ["INBOX"]⟩⟩ : EngineState) =
      some "50" ∧
    ("50" : String) ≠ "" ∧
    exClientA.list_history "50" (["INBOX"].getD 0 "") = .http 404 ∧
    incremental_sync exClientA ⟨⟨"host", []⟩, some ⟨"50", ["INBOX"]⟩⟩ ["INBOX"]
      (fun l => l) 7 =
      .ok (full_sync exClientA ⟨⟨"host", []⟩, some ⟨"50", ["INBOX"]⟩⟩ ["INBOX"]
        100 none 7) ∧
    (full_sync exClientA ⟨⟨"host", []⟩, some ⟨"50", ["INBOX"]⟩⟩ ["INBOX"]
      100 none 7).result = ⟨2, 0, 0, []⟩ :=
  ⟨by rfl, by decide, by rfl,
   claim_C4 exClientA ⟨⟨"host", []⟩, some ⟨"50", ["INBOX"]⟩⟩ ["INBOX"]
     (fun l => l) 7 "50" 0 (by rfl) (by decide) (by decide) (by rfl)
     (fun i hi => absurd hi (Nat.not_lt_zero i)),
   by rfl⟩

/-! ### Claim C5 (incremental dedup and processing order) -/

/-- Projection of a run outcome for stating concrete facts. -/
def okOut : Except Nat SyncOut → Option SyncOut
  | .ok o => some o
  | .error _ => none

/-- Cross-label remote: from cursor `100`, label `L1` reports added id
`A`, label `L2` reports added ids `B` and (again) `A`. -/
def exClientD : GmailClient :=
  { list_messages := fun _ _ _ => [],
    get_message := fun id =>
      if id == "A" then .ok ⟨["INBOX"], some "101", "rawA"⟩
      else if id == "B" then .ok ⟨["INBOX"], some "102", "rawB"⟩
      else .error "not found",
    list_history := fun start label =>
      if start == "100" && label == "L1" then .ok ⟨[⟨[some "A"]⟩], some "101"⟩
      else if start == "100" && label == "L2" then
        .ok ⟨[⟨[some "B", some "A"]⟩], some "102"⟩
      else .http 500 }

/-- Local state for the cross-label scenario. -/
def exStateD : EngineState := ⟨⟨"host", []⟩, some ⟨"100", ["L1", "L2"]⟩⟩

/-- Claim C5 as stated is false on its order part: the collected id set
in first-seen order is `[A, B]`, but a Python set enumerates in an
unspecified order, and under the legitimate enumeration `List.reverse`
(a permutation of the set's elements) the run fetches in order `[B, A]`,
not first-seen order. -/
theorem claim_C5_counterexample :
    listChangesPhase exClientD "100" [] "100" ["L1", "L2"] =
      .done ["A", "B"] "102" ∧
    (List.reverse ["A", "B"]).Perm ["A", "B"] ∧
    (okOut (incremental_sync exClientD exStateD ["L1", "L2"] List.reverse 7)).map
      (fun o => o.fetched) = some ["B", "A"] ∧
    some ["B", "A"] ≠ some ["A", "B"] := by
  refine ⟨by rfl, by decide, by rfl, by decide⟩

/-! ### Dot-free filenames: the glob pattern matches only its own id -/

lemma digitChar_lt_ne_dot : ∀ m, m < 10 → Nat.digitChar m ≠ '.' := by decide

lemma toDigitsCore_mem :
    ∀ (fuel n : Nat) (acc : List Char) (c : Char),
    c ∈ Nat.toDigitsCore 10 fuel n acc →
    (∃ m, m < 10 ∧ c = Nat.digitChar m) ∨ c ∈ acc := by
  intro fuel
  induction fuel with
  | zero => intro n acc c hc; exact Or.inr hc
  | succ f ih =>
    intro n acc c hc
    unfold Nat.toDigitsCore at hc
    by_cases hz : n / 10 = 0
    · rw [if_pos hz] at hc
      rcases List.mem_cons.mp hc with hc | hc
      · exact Or.inl ⟨n % 10, Nat.mod_lt n (by omega), hc⟩
      · exact Or.inr hc
    · rw [if_neg hz] at hc
      rcases ih (n / 10) (Nat.digitChar (n % 10) :: acc) c hc with h | h
      · exact Or.inl h
      · rcases List.mem_cons.mp h with h | h
        · exact Or.inl ⟨n % 10, Nat.mod_lt n (by omega), h⟩
        · exact Or.inr h

lemma toString_nat_dotFree (n : Nat) : '.' ∉ (toString n).data := by
  intro hmem
  have h : '.' ∈ Nat.toDigitsCore 10 (n + 1) n [] := hmem
  rcases toDigitsCore_mem (n + 1) n [] '.' h with ⟨m, hm, heq⟩ | hin
  · exact digitChar_lt_ne_dot m hm heq.symm
  · cases hin

lemma dot_split_unique :
    ∀ {x : List Char} {u : List Char} {y v : List Char},
    '.' ∉ x → '.' ∉ y → x ++ '.' :: u = y ++ '.' :: v → x = y ∧ u = v := by
  intro x
  induction x with
  | nil =>
    intro u y v _ hy heq
    cases y with
    | nil =>
      simp at heq
      exact ⟨rfl, heq⟩
    | cons d y' =>
      simp at heq
      exact absurd (heq.1 ▸ List.mem_cons_self d y') (by
        intro hmem
        exact hy (heq.1 ▸ List.mem_cons_self d y'))
  | cons c x' ih =>
    intro u y v hx hy heq
    cases y with
    | nil =>
      simp at heq
      exact absurd (heq.1 ▸ List.mem_cons_self c x') (by
        intro hmem
        exact hx (heq.1 ▸ List.mem_cons_self c x'))
    | cons d y' =>
      simp only [List.cons_append, List.cons.injEq] at heq
      obtain ⟨hcd, heq'⟩ := heq
      have hx' : '.' ∉ x' := fun hmem => hx (List.mem_cons_of_mem _ hmem)
      have hy' : '.' ∉ y' := fun hmem => hy (List.mem_cons_of_mem _ hmem)
      obtain ⟨hrec1, hrec2⟩ := ih hx' hy' heq'
      exact ⟨by rw [hcd, hrec1], hrec2⟩

lemma glob_filename_unique (now : Nat) (host id1 id2 flags : String)
    (hhost : '.' ∉ host.toList) (h1 : '.' ∉ id1.toList) (h2 : '.' ∉ id2.toList)
    (hf : '.' ∉ flags.toList)
    (hg : globMatches id2 (generate_filename now host id1 flags) = true) :
    id2 = id1 := by
  have hdot : ("." : String).data = ['.'] := rfl
  have hhost' : '.' ∉ host.data := hhost
  have h1' : '.' ∉ id1.data := h1
  have h2' : '.' ∉ id2.data := h2
  have hf' : '.' ∉ flags.data := hf
  have hinf := of_decide_eq_true hg
  obtain ⟨s₁, s₂, heq⟩ := hinf
  have hmid : ("." ++ id2 ++ ".").toList = '.' :: (id2.data ++ ['.']) := by
    show ("." ++ id2 ++ ".").data = _
    simp [String.data_append, hdot]
  have hfull : (generate_filename now host id1 flags).toList =
      (toString now).data ++
        '.' :: (id1.data ++ '.' :: (host ++ ":2," ++ flags).data) := by
    show (generate_filename now host id1 flags).data = _
    simp [generate_filename, String.data_append, hdot, List.append_assoc]
  rw [hmid, hfull] at heq
  have heq2 : s₁ ++ '.' :: (id2.data ++ '.' :: s₂) =
      (toString now).data ++
        '.' :: (id1.data ++ '.' :: (host ++ ":2," ++ flags).data) := by
    rw [← heq]
    simp [List.append_assoc]
  have hT := toString_nat_dotFree now
  have hH : '.' ∉ (host ++ ":2," ++ flags).data := by
    intro hc
    rw [String.data_append, String.data_append] at hc
    rcases List.mem_append.mp hc with hc | hc
    · rcases List.mem_append.mp hc with hc | hc
      · exact hhost' hc
      · exact absurd hc (by decide)
    · exact hf' hc
  have hs₁ : '.' ∉ s₁ := by
    have hcolon : List.count '.' (":2," : String).data = 0 := by decide
    have hcnt := congrArg (List.count '.') heq2
    simp [List.count_append, List.count_cons_self,
      List.count_eq_zero.mpr h2', List.count_eq_zero.mpr h1',
      List.count_eq_zero.mpr hT, List.count_eq_zero.mpr hH,
      List.count_eq_zero.mpr hhost', List.count_eq_zero.mpr hf', hcolon] at hcnt
    have hz : List.count '.' s₁ = 0 := by omega
    exact List.count_eq_zero.mp hz
  obtain ⟨hpre, hrest⟩ := dot_split_unique hs₁ hT heq2
  obtain ⟨hid, hsuf⟩ := dot_split_unique h2' h1' hrest
  cases id2 with
  | mk l2 =>
    cases id1 with
    | mk l1 =>
      have hid' : l2 = l1 := hid
      rw [hid']

/-- A filename generated for a different dot-free id never matches. -/
lemma glob_filename_ne (now : Nat) (host id1 id2 flags : String)
    (hhost : '.' ∉ host.toList) (h1 : '.' ∉ id1.toList) (h2 : '.' ∉ id2.toList)
    (hf : '.' ∉ flags.toList) (hne : id2 ≠ id1) :
    globMatches id2 (generate_filename now host id1 flags) = false := by
  rcases hb : globMatches id2 (generate_filename now host id1 flags)
  · rfl
  · exact absurd (glob_filename_unique now host id1 id2 flags hhost h1 h2 hf hb)
      hne

/-- Flag strings never contain a dot. -/
lemma labels_to_flags_dotFree (ls : List String) :
    '.' ∉ (labels_to_flags ls).toList := by
  unfold labels_to_flags
  split_ifs <;> decide

/-- Writing a file whose name does not match `id` cannot make `id` exist. -/
lemma write_other_exists_false (st : MaildirStorage) (folder bytes : String)
    (ls : List String) (idw id : String) (now : Nat)
    (hglob : globMatches id
      (generate_filename now st.hostname idw (labels_to_flags ls)) = false)
    (hex : message_exists st id = false) :
    message_exists (write_message st folder bytes ls idw now) id = false := by
  rw [write_message_def]
  unfold message_exists at hex ⊢
  rw [List.any_append, hex]
  simp [hglob]

/-- Freshness of a dot-free id survives the processing of other dot-free
ids on a dot-free host. -/
lemma processIds_exists_false (c : GmailClient) (n : Nat) :
    ∀ (ids : List String) (acc : RunAcc) (id : String),
    message_exists acc.storage id = false →
    (∀ p ∈ ids, p ≠ id) →
    '.' ∉ id.toList → (∀ p ∈ ids, '.' ∉ p.toList) →
    '.' ∉ acc.storage.hostname.toList →
    message_exists (processIds c n acc ids).storage id = false := by
  intro ids
  induction ids with
  | nil => intro acc id hex _ _ _ _; exact hex
  | cons p rest ih =>
    intro acc id hex hne hdid hdp hdh
    have hstep : processIds c n acc (p :: rest) =
        processIds c n (syncStep c n acc p) rest := rfl
    have hex' : message_exists (syncStep c n acc p).storage id = false := by
      rcases syncStep_eq c n acc p with ⟨_, heq⟩ | ⟨_, ⟨e, _, heq⟩ | ⟨msg, _, heq⟩⟩
      · rw [heq]
        exact hex
      · rw [heq]
        exact hex
      · rw [heq]
        refine write_other_exists_false _ _ _ _ _ _ _ ?_ hex
        exact glob_filename_ne n acc.storage.hostname p id
          (labels_to_flags msg.labelIds) hdh
          (hdp p (List.mem_cons_self _ _)) hdid
          (labels_to_flags_dotFree msg.labelIds)
          (Ne.symm (hne p (List.mem_cons_self _ _)))
    have hdh' : '.' ∉ (syncStep c n acc p).storage.hostname.toList := by
      rw [(syncStep_storage c n acc p).2]
      exact hdh
    rw [hstep]
    exact ih (syncStep c n acc p) id hex'
      (fun q hq => hne q (List.mem_cons_of_mem _ hq)) hdid
      (fun q hq => hdp q (List.mem_cons_of_mem _ hq)) hdh'

/-! ### The collected id set: union semantics and no duplicates -/

/-- Membership after a set insertion. -/
lemma insertNew_mem (acc : List String) (a x : String) :
    x ∈ insertNew acc a ↔ x ∈ acc ∨ x = a := by
  unfold insertNew
  by_cases h : acc.contains a = true
  · rw [if_pos h]
    constructor
    · exact Or.inl
    · rintro (hx | rfl)
      · exact hx
      · exact List.elem_iff.mp h
  · rw [if_neg h]
    simp [List.mem_append]

/-- Set insertion keeps the element list duplicate-free. -/
lemma insertNew_nodup (acc : List String) (a : String) (h : acc.Nodup) :
    (insertNew acc a).Nodup := by
  unfold insertNew
  by_cases hc : acc.contains a = true
  · rw [if_pos hc]
    exact h
  · rw [if_neg hc]
    have hna : a ∉ acc := fun hmem => hc (List.elem_iff.mpr hmem)
    rw [List.nodup_append]
    exact ⟨h, List.nodup_singleton a, fun x hx hx' =>
      hna ((List.mem_singleton.mp hx') ▸ hx)⟩

/-- Membership after one `messagesAdded` entry is handled. -/
lemma addInner_mem (acc : List String) (m : Option String) (x : String) :
    x ∈ addInner acc m ↔ x ∈ acc ∨ (m = some x ∧ x ≠ "") := by
  cases m with
  | none => simp [addInner]
  | some s =>
    show x ∈ (if (s == "") = true then acc else insertNew acc s) ↔ _
    by_cases hs : (s == "") = true
    · rw [if_pos hs]
      have hseq : s = "" := eq_of_beq hs
      subst hseq
      constructor
      · exact Or.inl
      · rintro (hx | ⟨heq, hne⟩)
        · exact hx
        · cases heq
          exact absurd rfl hne
    · rw [if_neg hs]
      rw [insertNew_mem]
      have hsne : s ≠ "" := by
        intro hc
        rw [hc] at hs
        simp at hs
      constructor
      · rintro (hx | rfl)
        · exact Or.inl hx
        · exact Or.inr ⟨rfl, hsne⟩
      · rintro (hx | ⟨heq, hne⟩)
        · exact Or.inl hx
        · injection heq with heq
          exact Or.inr heq.symm

/-- Handling one entry keeps the element list duplicate-free. -/
lemma addInner_nodup (acc : List String) (m : Option String) (h : acc.Nodup) :
    (addInner acc m).Nodup := by
  cases m with
  | none => exact h
  | some s =>
    show (if (s == "") = true then acc else insertNew acc s).Nodup
    by_cases hs : (s == "") = true
    · rw [if_pos hs]
      exact h
    · rw [if_neg hs]
      exact insertNew_nodup acc s h

/-- Membership after one record's inner loop. -/
lemma foldl_addInner_mem :
    ∀ (ms : List (Option String)) (acc : List String) (x : String),
    x ∈ ms.foldl addInner acc ↔ x ∈ acc ∨ (some x ∈ ms ∧ x ≠ "") := by
  intro ms
  induction ms with
  | nil => intro acc x; simp
  | cons m rest ih =>
    intro acc x
    show x ∈ rest.foldl addInner (addInner acc m) ↔ _
    rw [ih, addInner_mem]
    constructor
    · rintro ((hx | ⟨rfl, hne⟩) | ⟨hmem, hne⟩)
      · exact Or.inl hx
      · exact Or.inr ⟨List.mem_cons_self _ _, hne⟩
      · exact Or.inr ⟨List.mem_cons_of_mem _ hmem, hne⟩
    · rintro (hx | ⟨hmem, hne⟩)
      · exact Or.inl (Or.inl hx)
      · rcases List.mem_cons.mp hmem with heq | hmem'
        · exact Or.inl (Or.inr ⟨heq.symm, hne⟩)
        · exact Or.inr ⟨hmem', hne⟩

/-- One record's inner loop keeps the element list duplicate-free. -/
lemma foldl_addInner_nodup :
    ∀ (ms : List (Option String)) (acc : List String), acc.Nodup →
    (ms.foldl addInner acc).Nodup
  | [], _, h => h
  | m :: rest, acc, h =>
    foldl_addInner_nodup rest (addInner acc m) (addInner_nodup acc m h)

/-- Membership in the collected set of one `list_history` result: the
previous contents plus every truthy added id of any record. -/
lemma collectAdded_mem :
    ∀ (recs : List HistoryRecord) (acc : List String) (x : String),
    x ∈ recs.foldl (fun a rec => rec.messagesAdded.foldl addInner a) acc ↔
      x ∈ acc ∨ (∃ rec, rec ∈ recs ∧ some x ∈ rec.messagesAdded ∧ x ≠ "") := by
  intro recs
  induction recs with
  | nil => intro acc x; simp
  | cons rec0 rest ih =>
    intro acc x
    show x ∈ rest.foldl _ (rec0.messagesAdded.foldl addInner acc) ↔ _
    rw [ih, foldl_addInner_mem]
    constructor
    · rintro ((hx | ⟨hm, hne⟩) | ⟨rec, hrec, hm, hne⟩)
      · exact Or.inl hx
      · exact Or.inr ⟨rec0, List.mem_cons_self _ _, hm, hne⟩
      · exact Or.inr ⟨rec, List.mem_cons_of_mem _ hrec, hm, hne⟩
    · rintro (hx | ⟨rec, hrec, hm, hne⟩)
      · exact Or.inl (Or.inl hx)
      · rcases List.mem_cons.mp hrec with heq | hrec'
        · exact Or.inl (Or.inr ⟨heq ▸ hm, hne⟩)
        · exact Or.inr ⟨rec, hrec', hm, hne⟩

/-- Collecting one result keeps the set duplicate-free. -/
lemma collectAdded_nodup :
    ∀ (recs : List HistoryRecord) (acc : List String), acc.Nodup →
    (recs.foldl (fun a rec => rec.messagesAdded.foldl addInner a) acc).Nodup
  | [], _, h => h
  | rec0 :: rest, acc, h =>
    collectAdded_nodup rest (rec0.messagesAdded.foldl addInner acc)
      (foldl_addInner_nodup rec0.messagesAdded acc h)

/-- The truthy added ids one `list_history` outcome reports. -/
def addedIdsOf (o : HistOutcome) : List String :=
  match o with
  | .ok hr => collectAdded [] hr
  | .http _ => []

/-- A completed `list_history` loop collects a duplicate-free set. -/
lemma listChangesPhase_done_nodup (client : GmailClient) (start : String) :
    ∀ (labels : List String) (acc : List String) (current : String)
      (ids : List String) (cur : String),
    acc.Nodup →
    listChangesPhase client start acc current labels = .done ids cur →
    ids.Nodup := by
  intro labels
  induction labels with
  | nil =>
    intro acc current ids cur hnd hphase
    have h1 : acc = ids := (HistPhase.done.inj hphase).1
    rw [← h1]
    exact hnd
  | cons label0 rest ih =>
    intro acc current ids cur hnd hphase
    rcases hout : client.list_history start label0 with hr | s
    · have hphase' : listChangesPhase client start (collectAdded acc hr)
          (updateCurrent current hr) rest = .done ids cur := by
        have hunfold : listChangesPhase client start acc current (label0 :: rest) =
            listChangesPhase client start (collectAdded acc hr)
              (updateCurrent current hr) rest := by
          show (match client.list_history start label0 with
            | .http status => if status == 404 then HistPhase.fallback
                              else HistPhase.raised status
            | .ok hr => listChangesPhase client start (collectAdded acc hr)
                (updateCurrent current hr) rest) = _
          rw [hout]
        rw [← hunfold]
        exact hphase
      exact ih (collectAdded acc hr) (updateCurrent current hr) ids cur
        (collectAdded_nodup hr.history acc hnd) hphase'
    · exfalso
      have hx : (match client.list_history start label0 with
          | .http status => if status == 404 then HistPhase.fallback
                            else HistPhase.raised status
          | .ok hr => listChangesPhase client start (collectAdded acc hr)
              (updateCurrent current hr) rest) = .done ids cur := hphase
      rw [hout] at hx
      have hx3 : (if (s == 404) = true then HistPhase.fallback
          else HistPhase.raised s) = .done ids cur := hx
      by_cases h404 : (s == 404) = true
      · rw [if_pos h404] at hx3
        cases hx3
      · rw [if_neg h404] at hx3
        cases hx3

/-- A completed `list_history` loop retains everything already collected
and everything any processed label reported. -/
lemma listChangesPhase_done_mem (client : GmailClient) (start : String) :
    ∀ (labels : List String) (acc : List String) (current : String)
      (ids : List String) (cur : String),
    listChangesPhase client start acc current labels = .done ids cur →
    ∀ x, (x ∈ acc ∨ ∃ l ∈ labels, x ∈ addedIdsOf (client.list_history start l)) →
    x ∈ ids := by
  intro labels
  induction labels with
  | nil =>
    intro acc current ids cur hphase x hx
    have h1 : acc = ids := (HistPhase.done.inj hphase).1
    rcases hx with hx | ⟨l, hl, _⟩
    · exact h1 ▸ hx
    · cases hl
  | cons label0 rest ih =>
    intro acc current ids cur hphase x hx
    rcases hout : client.list_history start label0 with hr | s
    · have hphase' : listChangesPhase client start (collectAdded acc hr)
          (updateCurrent current hr) rest = .done ids cur := by
        have hunfold : listChangesPhase client start acc current (label0 :: rest) =
            listChangesPhase client start (collectAdded acc hr)
              (updateCurrent current hr) rest := by
          show (match client.list_history start label0 with
            | .http status => if status == 404 then HistPhase.fallback
                              else HistPhase.raised status
            | .ok hr => listChangesPhase client start (collectAdded acc hr)
                (updateCurrent current hr) rest) = _
          rw [hout]
        rw [← hunfold]
        exact hphase
      refine ih (collectAdded acc hr) (updateCurrent current hr) ids cur hphase'
        x ?_
      rcases hx with hx | ⟨l, hl, hxl⟩
      · exact Or.inl ((collectAdded_mem hr.history acc x).mpr (Or.inl hx))
      · rcases List.mem_cons.mp hl with heq | hl'
        · -- the added ids of the first label all land in the collected set
          have hxl' : x ∈ addedIdsOf (client.list_history start label0) :=
            heq ▸ hxl
          rw [hout] at hxl'
          have hx0 : x ∈ collectAdded [] hr := hxl'
          have hchar := (collectAdded_mem hr.history [] x).mp hx0
          rcases hchar with hc | hc
          · cases hc
          · exact Or.inl ((collectAdded_mem hr.history acc x).mpr (Or.inr hc))
        · exact Or.inr ⟨l, hl', hxl⟩
    · exfalso
      have hx2 : (match client.list_history start label0 with
          | .http status => if status == 404 then HistPhase.fallback
                            else HistPhase.raised status
          | .ok hr => listChangesPhase client start (collectAdded acc hr)
              (updateCurrent current hr) rest) = .done ids cur := hphase
      rw [hout] at hx2
      have hx3 : (if (s == 404) = true then HistPhase.fallback
          else HistPhase.raised s) = .done ids cur := hx2
      by_cases h404 : (s == 404) = true
      · rw [if_pos h404] at hx3
        cases hx3
      · rw [if_neg h404] at hx3
        cases hx3

/-! ### Trace lemmas: each id contributes at most one fetch and write -/

/-- The loop appends to the fetch trace a sublist of the processed ids,
to the write trace a sublist of that, and counts one download per
write. -/
lemma processIds_traces (c : GmailClient) (n : Nat) :
    ∀ (ids : List String) (acc : RunAcc),
    ∃ df dw, (processIds c n acc ids).fetched = acc.fetched ++ df ∧
      (processIds c n acc ids).written = acc.written ++ dw ∧
      df.Sublist ids ∧ dw.Sublist df ∧
      (processIds c n acc ids).result.downloaded =
        acc.result.downloaded + dw.length := by
  intro ids
  induction ids with
  | nil =>
    intro acc
    exact ⟨[], [], (List.append_nil _).symm, (List.append_nil _).symm,
      List.Sublist.refl _, List.Sublist.refl _, rfl⟩
  | cons p rest ih =>
    intro acc
    have hstep : processIds c n acc (p :: rest) =
        processIds c n (syncStep c n acc p) rest := rfl
    obtain ⟨df', dw', hf', hw', hsf', hsw', hd'⟩ := ih (syncStep c n acc p)
    rcases syncStep_eq c n acc p with ⟨_, heq⟩ | ⟨_, ⟨e, _, heq⟩ | ⟨msg, _, heq⟩⟩
    · refine ⟨df', dw', ?_, ?_, hsf'.cons p, hsw', ?_⟩
      · rw [hstep, hf', heq]
      · rw [hstep, hw', heq]
      · rw [hstep, hd', heq]
    · refine ⟨p :: df', dw', ?_, ?_, hsf'.cons₂ p, hsw'.cons p, ?_⟩
      · rw [hstep, hf', heq]
        simp
      · rw [hstep, hw', heq]
      · rw [hstep, hd', heq]
        simp [SyncResult.add_error]
    · refine ⟨p :: df', p :: dw', ?_, ?_, hsf'.cons₂ p, hsw'.cons₂ p, ?_⟩
      · rw [hstep, hf', heq]
        simp
      · rw [hstep, hw', heq]
        simp
      · rw [hstep, hd', heq]
        simp [List.length_cons]
        omega

/-- A fresh dot-free id with a fetchable message, processed once in a
duplicate-free list of dot-free ids, lands in both the fetch and write
traces. -/
lemma processIds_fresh (c : GmailClient) (n : Nat) :
    ∀ (pl : List String) (acc : RunAcc) (id : String) (msg : Message),
    pl.Nodup → id ∈ pl →
    message_exists acc.storage id = false →
    c.get_message id = .ok msg →
    '.' ∉ id.toList → (∀ p ∈ pl, '.' ∉ p.toList) →
    '.' ∉ acc.storage.hostname.toList →
    id ∈ (processIds c n acc pl).fetched ∧
    id ∈ (processIds c n acc pl).written := by
  intro pl
  induction pl with
  | nil => intro acc id msg _ hmem; cases hmem
  | cons p rest ih =>
    intro acc id msg hnd hmem hfresh hok hdid hdp hdh
    have hstep : processIds c n acc (p :: rest) =
        processIds c n (syncStep c n acc p) rest := rfl
    by_cases hp : p = id
    · subst hp
      rcases syncStep_eq c n acc p with ⟨hex, _⟩ | ⟨_, ⟨e, he, _⟩ | ⟨msg', _, heq⟩⟩
      · rw [hfresh] at hex
        cases hex
      · rw [hok] at he
        cases he
      · have hfet : p ∈ (syncStep c n acc p).fetched := by
          rw [heq]
          exact List.mem_append_right _ (List.mem_singleton_self _)
        have hwri : p ∈ (syncStep c n acc p).written := by
          rw [heq]
          exact List.mem_append_right _ (List.mem_singleton_self _)
        obtain ⟨df, dw, hf, hw, _, _, _⟩ := processIds_traces c n rest
          (syncStep c n acc p)
        rw [hstep, hf, hw]
        exact ⟨List.mem_append_left _ hfet, List.mem_append_left _ hwri⟩
    · have hmem' : id ∈ rest := by
        rcases List.mem_cons.mp hmem with heq | hmem'
        · exact absurd heq.symm hp
        · exact hmem'
      have hfresh' : message_exists (syncStep c n acc p).storage id = false :=
        processIds_exists_false c n [p] acc id hfresh
          (fun q hq => (List.mem_singleton.mp hq) ▸ hp) hdid
          (fun q hq => (List.mem_singleton.mp hq) ▸ hdp p (List.mem_cons_self _ _))
          hdh
      have hdh' : '.' ∉ (syncStep c n acc p).storage.hostname.toList := by
        rw [(syncStep_storage c n acc p).2]
        exact hdh
      rw [hstep]
      exact ih (syncStep c n acc p) id msg (List.Nodup.of_cons hnd) hmem' hfresh'
        hok hdid (fun q hq => hdp q (List.mem_cons_of_mem _ hq)) hdh'

/-- Claim C5 (amended): the added ids returned across labels are unioned
into a duplicate-free collection (iteration order of the Python set being
unspecified, any permutation of it may be processed); a message id
reported by two labels' change sets — fresh locally, fetchable, with
dot-free ids and hostname — is fetched exactly once and counted exactly
once in `downloaded` (the write trace is duplicate-free and `downloaded`
is its length). -/
theorem claim_C5 : ∀ (client : GmailClient) (st : EngineState)
    (labels : List String) (enumerate : List String → List String)
    (now : Nat) (start current : String) (ids : List String)
    (id : String) (msg : Message) (i j : Nat),
    get_history_id st = some start → start ≠ "" →
    listChangesPhase client start [] start labels = .done ids current →
    (enumerate ids).Perm ids →
    i < j → j < labels.length →
    id ∈ addedIdsOf (client.list_history start (labels.getD i "")) →
    id ∈ addedIdsOf (client.list_history start (labels.getD j "")) →
    message_exists st.storage id = false →
    client.get_message id = .ok msg →
    '.' ∉ id.toList → (∀ p ∈ ids, '.' ∉ p.toList) →
    '.' ∉ st.storage.hostname.toList →
    ∀ out, incremental_sync client st labels enumerate now = .ok out →
    ids.Nodup ∧ id ∈ ids ∧
    List.count id out.fetched = 1 ∧
    List.count id out.written = 1 ∧
    out.written.Nodup ∧
    out.result.downloaded = out.written.length := by
  intro client st labels enumerate now start current ids id msg i j h1 h2
    hphase hperm hij hj haddi haddj hfresh hok hdid hdids hdh out hout
  have hbeq : (start == "") = false := beq_eq_false_iff_ne.mpr h2
  unfold incremental_sync at hout
  simp only [h1, hbeq, Bool.false_eq_true, if_false, hphase] at hout
  have hout' := Except.ok.inj hout
  subst hout'
  have hnodup : ids.Nodup :=
    listChangesPhase_done_nodup client start labels [] start ids current
      List.nodup_nil hphase
  have hmemids : id ∈ ids := by
    refine listChangesPhase_done_mem client start labels [] start ids current
      hphase id (Or.inr ⟨labels.getD j "", ?_, haddj⟩)
    rw [List.getD_eq_getElem labels "" hj]
    exact List.getElem_mem hj
  have hplnd : (enumerate ids).Nodup := (List.Perm.nodup_iff hperm).mpr hnodup
  have hplmem : id ∈ enumerate ids := (List.Perm.mem_iff hperm).mpr hmemids
  have hdpl : ∀ p ∈ enumerate ids, '.' ∉ p.toList :=
    fun p hp => hdids p ((List.Perm.mem_iff hperm).mp hp)
  have hfresh0 : message_exists (initAcc st).storage id = false := hfresh
  have hdh0 : '.' ∉ (initAcc st).storage.hostname.toList := hdh
  obtain ⟨hfet, hwri⟩ := processIds_fresh client now (enumerate ids) (initAcc st)
    id msg hplnd hplmem hfresh0 hok hdid hdpl hdh0
  obtain ⟨df, dw, hf, hw, hsf, hsw, hd⟩ :=
    processIds_traces client now (enumerate ids) (initAcc st)
  have hfeq : (processIds client now (initAcc st) (enumerate ids)).fetched = df := by
    rw [hf]
    exact List.nil_append df
  have hweq : (processIds client now (initAcc st) (enumerate ids)).written = dw := by
    rw [hw]
    exact List.nil_append dw
  have hdfnd : df.Nodup := List.Nodup.sublist hsf hplnd
  have hdwnd : dw.Nodup := List.Nodup.sublist (hsw.trans hsf) hplnd
  refine ⟨hnodup, hmemids, ?_, ?_, ?_, ?_⟩
  · show List.count id
      (processIds client now (initAcc st) (enumerate ids)).fetched = 1
    rw [hfeq]
    exact List.count_eq_one_of_mem hdfnd (hfeq ▸ hfet)
  · show List.count id
      (processIds client now (initAcc st) (enumerate ids)).written = 1
    rw [hweq]
    exact List.count_eq_one_of_mem hdwnd (hweq ▸ hwri)
  · show (processIds client now (initAcc st) (enumerate ids)).written.Nodup
    rw [hweq]
    exact hdwnd
  · show (processIds client now (initAcc st) (enumerate ids)).result.downloaded =
      (processIds client now (initAcc st) (enumerate ids)).written.length
    rw [hd, hweq]
    show 0 + dw.length = dw.length
    omega

/-- The run the cross-label scenario produces under the `List.reverse`
enumeration of the collected set. -/
def exOutD : SyncOut :=
  ⟨⟨2, 0, 0, []⟩,
   ⟨⟨"host", [⟨"INBOX", "cur", "7.B.host:2,S", "rawB"⟩,
              ⟨"INBOX", "cur", "7.A.host:2,S", "rawA"⟩]⟩,
    some ⟨"102", ["L1", "L2"]⟩⟩,
   ["B", "A"], ["B", "A"], ["102", "101"]⟩

/-- Cross-label witness for claim C5: id `A` appears in both labels'
change sets, the collected set is `{A, B}` without duplicates, and under
the reversed enumeration `A` is fetched once, written once and counted
once in `downloaded`. -/
theorem claim_C5_witness :
    ((List.reverse ["A", "B"]).Perm ["A", "B"] ∧
     "A" ∈ addedIdsOf (exClientD.list_history "100" (["L1", "L2"].getD 0 "")) ∧
     "A" ∈ addedIdsOf (exClientD.list_history "100" (["L1", "L2"].getD 1 "")) ∧
     incremental_sync exClientD exStateD ["L1", "L2"] List.reverse 7 =
       .ok exOutD) ∧
    (["A", "B"] : List String).Nodup ∧ "A" ∈ (["A", "B"] : List String) ∧
    List.count "A" exOutD.fetched = 1 ∧
    List.count "A" exOutD.written = 1 ∧
    exOutD.written.Nodup ∧
    exOutD.result.downloaded = exOutD.written.length := by
  refine ⟨⟨by decide, by decide, by decide, by rfl⟩, ?_⟩
  exact claim_C5 exClientD exStateD ["L1", "L2"] List.reverse 7 "100" "102"
    ["A", "B"] "A" ⟨["INBOX"], some "101", "rawA"⟩ 0 1
    (by rfl) (by decide) (by rfl) (by decide) (by decide) (by decide)
    (by decide) (by decide) (by rfl) (by rfl) (by decide) (by decide)
    (by decide) exOutD (by rfl)

end Courriel
